import Mathlib

/-!
Verification of the Clausewitz-script text pipeline (lexer, recursive-descent
parser, node transformer, formatters) of the `mdet` repository, as a shallow
embedding in Lean.

Conventions of the embedding:
* Python machine floats are modelled by `ℚ`.  Every claim that evaluates
  float arithmetic does so only on values (such as 50/100 and 12.5/100) that
  are exactly representable in binary floating point, where the IEEE-754
  operations performed by the source coincide with exact rational arithmetic.
* Python dictionaries are modelled as insertion-ordered association lists
  whose keys are the hashable scalars (`str`, `int`, `float`, `bool`); using
  an unhashable object as a key (which raises `TypeError` at run time) is
  modelled as an `Except.error`.
* Raised exceptions are modelled with `Except`; the v1 lexer's
  `try/except LexerError` block that swallows the error and returns `[]`
  is modelled explicitly by `tokenizeV1`.
* Source text is assumed to be ASCII (the script dialect), so Python's
  `str.isalpha`/`str.isdigit`/`str.isspace` are modelled by their ASCII
  restrictions.
-/

/-! ## Python character and string primitives -/

/-- Python `str.isspace` restricted to ASCII. -/
def pyIsSpace (c : Char) : Bool :=
  c = ' ' || c = '\t' || c = '\n' || c = '\x0d' || c = '\x0b' || c = '\x0c'

/-- Python `str.isdigit` restricted to ASCII. -/
def pyIsDigit (c : Char) : Bool :=
  '0' ≤ c && c ≤ '9'

/-- Python `str.isalpha` restricted to ASCII. -/
def pyIsAlpha (c : Char) : Bool :=
  ('a' ≤ c && c ≤ 'z') || ('A' ≤ c && c ≤ 'Z')

/-- Python `str.isalnum` restricted to ASCII. -/
def pyIsAlnum (c : Char) : Bool :=
  pyIsAlpha c || pyIsDigit c

/-- Build a `String` from a list of characters. -/
def strOf (cs : List Char) : String := String.mk cs

/-- Digit value of an ASCII digit character. -/
def digitVal (c : Char) : Nat := c.toNat - '0'.toNat

/-- Natural number denoted by a list of ASCII digits (most significant first). -/
def digitsToNat (cs : List Char) : Nat :=
  cs.foldl (fun acc c => acc * 10 + digitVal c) 0

/-- Python `int(s)`: an optional sign followed by at least one digit.
Returns `none` where Python would raise `ValueError`. -/
def pyIntOfString (s : String) : Option Int :=
  match s.data with
  | [] => none
  | '-' :: rest =>
      if rest ≠ [] && rest.all pyIsDigit then some (-(digitsToNat rest : Int)) else none
  | cs =>
      if cs.all pyIsDigit then some (digitsToNat cs : Nat) else none

/-- Python `float(s)` for plain decimal notation `[-]digits[.digits]`
(the only shape the lexer can feed it).  Returns `none` where Python would
raise `ValueError` (for example on a string with two dots).  The resulting
binary float is modelled by the exact rational. -/
def pyFloatOfString (s : String) : Option ℚ :=
  let core : List Char → Option ℚ := fun cs =>
    match cs.splitOn '.' with
    | [a] => if a ≠ [] && a.all pyIsDigit then some (digitsToNat a : ℚ) else none
    | [a, b] =>
        if (a.all pyIsDigit && b.all pyIsDigit) && (a ≠ [] || b ≠ []) then
          some ((digitsToNat a : ℚ) + (digitsToNat b : ℚ) / ((10 : ℚ) ^ b.length))
        else none
    | _ => none
  match s.data with
  | '-' :: rest => (core rest).map (fun q => -q)
  | cs => core cs

/-- Render a natural number zero-padded on the left to `width` digits. -/
def padNat (width : Nat) (n : Nat) : String :=
  let s := toString n
  strOf (List.replicate (width - s.length) '0') ++ s

/-- Python `str(f)` for a float: the shortest decimal that is exact for
terminating decimals.  For non-terminating rationals (which never arise in
the verified claims, since the source only produces decimal fractions of
decimal literals) we truncate at 17 fractional digits, mirroring the float
repr precision bound. -/
def pyStrFloat (q : ℚ) : String :=
  let sign := if q < 0 then "-" else ""
  let a := |q|
  let k := (List.range 18).find? (fun k => (a * (10 : ℚ) ^ k).den = 1)
  match k with
  | some 0 => sign ++ toString a.num.natAbs ++ ".0"
  | some k =>
      let m := (a * (10 : ℚ) ^ k).num.natAbs
      sign ++ toString (m / 10 ^ k) ++ "." ++ padNat k (m % 10 ^ k)
  | none =>
      let m := (a * (10 : ℚ) ^ 17).num.natAbs / 1
      sign ++ toString (m / 10 ^ 17) ++ "." ++ padNat 17 (m % 10 ^ 17)

/-- Strip trailing occurrences of one character, Python `s.rstrip(c)`. -/
def rstripChar (s : String) (c : Char) : String :=
  strOf (s.data.reverse.dropWhile (· = c)).reverse

/-- Python `"{:.6f}".format(f)` followed by `.rstrip("0").rstrip(".")`,
the float rendering of the v1 formatter.  Rounding of the 7th fractional
digit uses round-half-up; the source's IEEE round-half-even differs only on
exact ties, which no verified claim exercises. -/
def fixed6Strip (q : ℚ) : String :=
  let m : ℤ := round (q * 1000000)
  let sign := if m < 0 then "-" else ""
  let a := m.natAbs
  let s := sign ++ toString (a / 1000000) ++ "." ++ padNat 6 (a % 1000000)
  rstripChar (rstripChar s '0') '.'

/-! ## v1 lexer (`src/scripts/generator/lexer.py`) -/

/-- `TokenType` of the v1 lexer. -/
inductive Tok where
  | STRING_LITERAL | NUMBER_LITERAL | PERCENTAGE_LITERAL | DATE_LITERAL
  | BOOLEAN | OPERATOR | KEYWORD | SCOPE | MODIFIER | EFFECT | TRIGGER
  | VARIABLE | CONSTANT | IDENTIFIER | OPEN_BRACE | CLOSE_BRACE | COMMENT
  | ROOT | EOF
  deriving DecidableEq, Repr

/-- A Python value as stored in `Token.value` (`Any` in the source). -/
inductive PyVal where
  | vStr (s : String)
  | vInt (n : Int)
  | vFloat (q : ℚ)
  | vBool (b : Bool)
  | vNone
  deriving DecidableEq, Repr

/-- `Token` dataclass: type, value, 1-based line and column. -/
structure Token where
  type : Tok
  value : PyVal
  line : Nat
  column : Nat
  deriving DecidableEq, Repr

/-- The externally supplied vocabulary word lists (`clausewitz.json` +
game-specific json): keywords, modifiers, effects, triggers. -/
structure Vocab where
  keywords : List String := []
  modifiers : List String := []
  effects : List String := []
  triggers : List String := []
  deriving Repr

/-- Errors raised during scanning.  `advancePastEnd` is the
`LexerError("Attempt to advance beyond end of input")` raised by
`Lexer._advance`; `badNumber` models the `ValueError` that `float(...)`
raises on a malformed numeric text (not a `LexerError`, hence not caught
by `tokenize`). -/
inductive LexErr where
  | unexpectedChar (c : Char) (line column : Nat)
  | advancePastEnd (line column : Nat)
  | badNumber (s : String) (line column : Nat)
  deriving DecidableEq, Repr

/-- Is the error a `LexerError` (caught by `tokenize`) as opposed to a
`ValueError` (which propagates)? -/
def LexErr.isLexerError : LexErr → Bool
  | .unexpectedChar .. => true
  | .advancePastEnd .. => true
  | .badNumber .. => false

/-- Advance the (line, column) bookkeeping over one consumed character,
as `Lexer._advance` does. -/
def stepPos (p : Nat × Nat) (c : Char) : Nat × Nat :=
  if c = '\n' then (p.1 + 1, 1) else (p.1, p.2 + 1)

/-- Advance the bookkeeping over a list of consumed characters. -/
def stepPosList (p : Nat × Nat) (cs : List Char) : Nat × Nat :=
  cs.foldl stepPos p

/-- The single-character members of the `OPERATORS` set. -/
def isOpChar (c : Char) : Bool :=
  c = '>' || c = '<' || c = '=' || c = ':' || c = '?' || c = '@'

/-- Characters consumed inside a numeric literal. -/
def numChar (c : Char) : Bool :=
  pyIsDigit c || c = '.' || c = '%'

/-- Characters that continue an identifier. -/
def identChar (c : Char) : Bool :=
  pyIsAlnum c || c = '_' || c = '-' || c = '.'

/-- `re.match(r"\b\d{1,4}\.\d{1,4}\.\d{1,4}\b", s)` on a lexed numeric text
(whose characters are digits, dots, percent signs and a possible leading
minus): the text must start with three dot-separated digit runs of length
1 to 4; the trailing `\b` is satisfied because the character after a
maximal digit run inside such a text is never a word character. -/
def isDateText (cs : List Char) : Bool :=
  let d1 := cs.takeWhile pyIsDigit
  let r1 := cs.dropWhile pyIsDigit
  match r1 with
  | '.' :: r1' =>
      let d2 := r1'.takeWhile pyIsDigit
      let r2 := r1'.dropWhile pyIsDigit
      (match r2 with
       | '.' :: r2' =>
           let d3 := r2'.takeWhile pyIsDigit
           (1 ≤ d1.length && d1.length ≤ 4) &&
           (1 ≤ d2.length && d2.length ≤ 4) &&
           (1 ≤ d3.length && d3.length ≤ 4)
       | _ => false)
  | _ => false

/-- `Lexer._get_identifier_token_type`: vocabulary classification with
precedence keyword > modifier > effect > trigger > identifier. -/
def identifierTok (voc : Vocab) (s : String) : Tok :=
  if s ∈ voc.keywords then .KEYWORD
  else if s ∈ voc.modifiers then .MODIFIER
  else if s ∈ voc.effects then .EFFECT
  else if s ∈ voc.triggers then .TRIGGER
  else .IDENTIFIER

/-- `^[a-zA-Z_][a-zA-Z0-9_-]*$` from `Lexer._handle_identifiers`. -/
def plainIdentText (cs : List Char) : Bool :=
  match cs with
  | [] => false
  | c :: rest =>
      (pyIsAlpha c || c = '_') &&
      rest.all (fun d => pyIsAlnum d || d = '_' || d = '-')

/-- One classification step of `Lexer._handle_identifiers` after the text
has been consumed (`prev` is the previously emitted token, if any). -/
def classifyIdentifier (voc : Vocab) (prev : Option Token) (s : String) : Token → Token :=
  fun base =>
    if s = "yes" then { base with type := .BOOLEAN, value := .vBool true }
    else if s = "no" then { base with type := .BOOLEAN, value := .vBool false }
    else if s.contains '@' then
      (match prev with
       | some t => if t.type = .IDENTIFIER then { base with type := .IDENTIFIER } else { base with type := .CONSTANT }
       | none => { base with type := .CONSTANT })
    else if s.contains '.' then { base with type := .SCOPE }
    else if plainIdentText s.data then { base with type := identifierTok voc s }
    else { base with type := .IDENTIFIER }

/-- The scanning loop of `Lexer.tokenize`, processing the remaining
characters at bookkeeping position (`line`, `col`) with the tokens emitted
so far in `acc` (needed because identifier classification inspects
`previous_token`).  `fuel` strictly exceeds the number of remaining
characters, and every iteration consumes at least one character, so the
out-of-fuel case is unreachable. -/
def scanAux (voc : Vocab) : Nat → List Char → Nat → Nat → List Token →
    Except LexErr (List Token)
  | 0, _, line, col, _ => .error (.advancePastEnd line col)
  | _ + 1, [], line, col, acc =>
      .ok (acc ++ [⟨.EOF, .vNone, line, col⟩])
  | fuel + 1, c :: cs, line, col, acc =>
      if pyIsSpace c then
        -- `_skip_whitespace`
        let taken := (c :: cs).takeWhile pyIsSpace
        let rest := (c :: cs).dropWhile pyIsSpace
        let p := stepPosList (line, col) taken
        scanAux voc fuel rest p.1 p.2 acc
      else if c = '#' then
        -- `_handle_comments`
        let taken := (c :: cs).takeWhile (· ≠ '\n')
        let rest := (c :: cs).dropWhile (· ≠ '\n')
        let p := stepPosList (line, col) taken
        scanAux voc fuel rest p.1 p.2 (acc ++ [⟨.COMMENT, .vStr (strOf taken), p.1, p.2⟩])
      else if c = '\x7b' then
        scanAux voc fuel cs line (col + 1) (acc ++ [⟨.OPEN_BRACE, .vStr (strOf [c]), line, col⟩])
      else if c = '\x7d' then
        scanAux voc fuel cs line (col + 1) (acc ++ [⟨.CLOSE_BRACE, .vStr (strOf [c]), line, col⟩])
      else if c = '"' || c = '\x27' then
        -- `_handle_strings`: consume verbatim until the matching quote;
        -- no escape convention.  An unterminated string adds the token and
        -- then fails in `_advance`.
        let p0 := stepPos (line, col) c
        let content := cs.takeWhile (· ≠ c)
        let rest := cs.dropWhile (· ≠ c)
        let p := stepPosList p0 content
        (match rest with
         | _ :: rest' =>
             scanAux voc fuel rest' (stepPos p c).1 (stepPos p c).2
               (acc ++ [⟨.STRING_LITERAL, .vStr (strOf content), p.1, p.2⟩])
         | [] => .error (.advancePastEnd p.1 p.2))
      else if pyIsDigit c || (c = '-' && pyIsDigit (cs.headD '\x00')) then
        -- `_handle_numbers`
        let taken := if c = '-' then '-' :: cs.takeWhile numChar else (c :: cs).takeWhile numChar
        let rest := if c = '-' then cs.dropWhile numChar else (c :: cs).dropWhile numChar
        let p := stepPosList (line, col) taken
        let text := strOf taken
        if isDateText taken then
          scanAux voc fuel rest p.1 p.2 (acc ++ [⟨.DATE_LITERAL, .vStr text, p.1, p.2⟩])
        else if text.contains '%' then
          scanAux voc fuel rest p.1 p.2 (acc ++ [⟨.PERCENTAGE_LITERAL, .vStr text, p.1, p.2⟩])
        else if text.contains '.' then
          match pyFloatOfString text with
          | some q => scanAux voc fuel rest p.1 p.2 (acc ++ [⟨.NUMBER_LITERAL, .vFloat q, p.1, p.2⟩])
          | none => .error (.badNumber text p.1 p.2)
        else
          match pyIntOfString text with
          | some n => scanAux voc fuel rest p.1 p.2 (acc ++ [⟨.NUMBER_LITERAL, .vInt n, p.1, p.2⟩])
          | none => .error (.badNumber text p.1 p.2)
      else if isOpChar c then
        if c = '@' then
          -- `_handle_operator` delegates `@` to `_handle_identifiers`
          let taken := c :: cs.takeWhile identChar
          let rest := cs.dropWhile identChar
          let p := stepPosList (line, col) taken
          let base : Token := ⟨.IDENTIFIER, .vStr (strOf taken), p.1, p.2⟩
          scanAux voc fuel rest p.1 p.2
            (acc ++ [classifyIdentifier voc acc.getLast? (strOf taken) base])
        else
          -- two-character operator exactly when the next character is itself
          -- a single-character operator (`current_value` is empty here, so
          -- `_val` is just the peeked character)
          (match cs with
           | d :: cs' =>
               if isOpChar d then
                 let p := stepPosList (line, col) [c, d]
                 scanAux voc fuel cs' p.1 p.2 (acc ++ [⟨.OPERATOR, .vStr (strOf [c, d]), p.1, p.2⟩])
               else
                 scanAux voc fuel cs line (col + 1) (acc ++ [⟨.OPERATOR, .vStr (strOf [c]), line, col + 1⟩])
           | [] =>
               scanAux voc fuel [] line (col + 1) (acc ++ [⟨.OPERATOR, .vStr (strOf [c]), line, col + 1⟩]))
      else if pyIsAlpha c || c = '_' || c = '-' || c = '.' then
        -- `_handle_identifiers` (the `@` first-character case is above)
        let taken := c :: cs.takeWhile identChar
        let rest := cs.dropWhile identChar
        let p := stepPosList (line, col) taken
        let base : Token := ⟨.IDENTIFIER, .vStr (strOf taken), p.1, p.2⟩
        scanAux voc fuel rest p.1 p.2
          (acc ++ [classifyIdentifier voc acc.getLast? (strOf taken) base])
      else
        .error (.unexpectedChar c line col)
termination_by structural fuel => fuel

/-- The scanning phase of `Lexer.tokenize` before its `try/except`:
either the full token list (terminated by `EOF`) or the raised error. -/
def scanV1 (voc : Vocab) (s : String) : Except LexErr (List Token) :=
  scanAux voc (s.data.length + 1) s.data 1 1 []

/-- `Lexer.tokenize` as observed by callers: a `LexerError` is caught,
logged and swallowed, and the method returns `[]`; a `ValueError` from
`float`/`int` propagates. -/
def tokenizeV1 (voc : Vocab) (s : String) : Except LexErr (List Token) :=
  match scanV1 voc s with
  | .ok ts => .ok ts
  | .error e => if e.isLexerError then .ok [] else .error e

example : scanV1 {} "a = 5" =
    .ok [⟨.IDENTIFIER, .vStr "a", 1, 2⟩, ⟨.OPERATOR, .vStr "=", 1, 4⟩,
         ⟨.NUMBER_LITERAL, .vInt 5, 1, 6⟩, ⟨.EOF, .vNone, 1, 6⟩] := by
  with_unfolding_all rfl

/-! ## v1 parser (`src/scripts/generator/parser.py`) -/

/-- `ValueNode`: the token's value and token type (positions are dropped,
as in the source's `ValueNode.__init__`). -/
structure VNode where
  value : PyVal
  type : Tok
  deriving DecidableEq, Repr

/-- Which `ObjectNode` subclass a block was built as
(`EffectBlockNode` / `KeywordBlockNode` / `TriggerBlockNode` / plain). -/
inductive BlockTag where
  | plain | effect | keyword | trigger
  deriving DecidableEq, Repr

/-- Parse-tree nodes (`ValueNode`, `KeyValueNode`, `ComparisonNode`,
`ObjectNode` and subclasses, `ArrayNode`).  A comparison's operator is the
operator token's value. -/
inductive PNode where
  | value (v : VNode)
  | keyValue (key : VNode) (val : VNode)
  | comparison (left : VNode) (op : PyVal) (right : VNode)
  | obj (tag : BlockTag) (context : VNode) (children : List PNode)
  | arr (context : VNode) (elements : List VNode)

/-- `ParseException`, plus explicit constructors for the `IndexError` a
bare `tokens[position]` raises on an exhausted stream and for fuel
exhaustion (unreachable with the fuel supplied by `parseV1`). -/
inductive PErr where
  | expected (types : List Tok) (got : Token)
  | expectedValue (v : PyVal) (got : Token)
  | unexpectedTok (t : Token)
  | indexCrash
  | outOfFuel
  deriving DecidableEq, Repr

/-- `Parser._strip_comments`. -/
def stripComments (ts : List Token) : List Token :=
  ts.filter (fun t => t.type ≠ Tok.COMMENT)

/-- The token types accepted at the head of an identifier-led construct
(`Parser._get_identifier_type`'s `expect` list). -/
def identLike : List Tok :=
  [.IDENTIFIER, .CONSTANT, .KEYWORD, .SCOPE, .MODIFIER, .EFFECT, .TRIGGER, .VARIABLE]

/-- Token types allowed as the right-hand side of a key/value pair in
`Parser._get_identifier_type` (no `KEYWORD`, no `TRIGGER`). -/
def kvValueToks : List Tok :=
  [.IDENTIFIER, .NUMBER_LITERAL, .PERCENTAGE_LITERAL, .STRING_LITERAL, .BOOLEAN,
   .CONSTANT, .DATE_LITERAL, .SCOPE, .MODIFIER, .EFFECT, .VARIABLE]

/-- `Parser.lookahead`: out-of-range lookahead yields an `EOF` token carrying
the current token's position. -/
def peekTok (ts : List Token) (n : Nat) : Token :=
  match ts.get? n with
  | some t => t
  | none =>
      match ts with
      | t :: _ => ⟨.EOF, .vNone, t.line, t.column⟩
      | [] => ⟨.EOF, .vNone, 0, 0⟩

/-- `Parser.consume` (= `expect` + `advance`): requires the current token's
type to be in `types` and, when `val?` is given, its value to equal it. -/
def consumeTok (ts : List Token) (types : List Tok) (val? : Option PyVal) :
    Except PErr (Token × List Token) :=
  match ts with
  | [] => .error .indexCrash
  | t :: rest =>
      if t.type ∈ types then
        match val? with
        | some v => if t.value = v then .ok (t, rest) else .error (.expectedValue v t)
        | none => .ok (t, rest)
      else .error (.expected types t)

/-- The four-way classification of `Parser._get_identifier_type`. -/
inductive IdentKind where
  | value | object | kv | comparison
  deriving DecidableEq, Repr

/-- `Parser._get_identifier_type`: two-token lookahead classification. -/
def getIdentifierType (ts : List Token) : Except PErr IdentKind :=
  match ts with
  | [] => .error .indexCrash
  | t :: _ =>
      if t.type ∈ identLike then
        let next := peekTok ts 1
        let next2 := peekTok ts 2
        if next.type = Tok.OPEN_BRACE ∨
            (next.value = PyVal.vStr "=" ∧ next2.type = Tok.OPEN_BRACE) then
          .ok .object
        else if next.type = Tok.OPERATOR then
          if next.value = PyVal.vStr "=" then
            if next2.type ∈ kvValueToks then .ok .kv else .ok .value
          else .ok .comparison
        else .ok .value
      else .error (.expected identLike t)

/-- `Parser._parse_value`: consume one literal-shaped token. -/
def parseValue (ts : List Token) : Except PErr (VNode × List Token) :=
  match ts with
  | [] => .error .indexCrash
  | t :: rest =>
      if t.type = .STRING_LITERAL ∨ t.type = .NUMBER_LITERAL ∨
          t.type = .PERCENTAGE_LITERAL ∨ t.type = .BOOLEAN ∨ t.type = .CONSTANT ∨
          t.type = .DATE_LITERAL ∨ t.type = .IDENTIFIER ∨ t.type = .VARIABLE then
        .ok (⟨t.value, t.type⟩, rest)
      else .error (.unexpectedTok t)

/-- `Parser._parse_comparison`. -/
def parseComparison (ts : List Token) : Except PErr (PNode × List Token) := do
  let (left, ts1) ← parseValue ts
  let (op, ts2) ← consumeTok ts1 [.OPERATOR] none
  let (right, ts3) ← parseValue ts2
  .ok (.comparison left op.value right, ts3)

/-- `Parser._parse_key_value_pair` (note: `MODIFIER` is commented out of
the key `consume` list in the source). -/
def parseKeyValue (ts : List Token) : Except PErr (PNode × List Token) := do
  let (key, ts1) ← consumeTok ts
    [.IDENTIFIER, .CONSTANT, .KEYWORD, .SCOPE, .EFFECT, .TRIGGER, .VARIABLE] none
  let (_, ts2) ← consumeTok ts1 [.OPERATOR] (some (.vStr "="))
  let (v, ts3) ← parseValue ts2
  .ok (.keyValue ⟨key.value, key.type⟩ v, ts3)

/-- Is a parse-tree node a bare `ValueNode`? -/
def isValueNode : PNode → Bool
  | .value _ => true
  | _ => false

/-- Is a node a `KeyValueNode` whose key token was a `CONSTANT`? -/
def isConstKV : PNode → Bool
  | .keyValue k _ => k.type = .CONSTANT
  | _ => false

/-- Key value of a `KeyValueNode`. -/
def kvKeyVal : PNode → Option PyVal
  | .keyValue k _ => some k.value
  | _ => none

/-- `ObjectNode` subclass choice in `Parser._parse_object`. -/
def blockTagOf (t : Tok) : BlockTag :=
  if t = .EFFECT then .effect
  else if t = .KEYWORD then .keyword
  else if t = .TRIGGER then .trigger
  else .plain

/-- The constant-hoisting loop at the end of `Parser._parse_object`: the
loop iterates over the original child list, appending every constant-keyed
`KeyValueNode` to the `_constants` node, while repeatedly re-filtering
`node.children`; the net effect is that every `KeyValueNode` whose key
value equals some constant key value is removed, and the `_constants`
object (built from the constant pairs in encounter order) is inserted
first when non-empty. -/
def hoistConstants (cs : List PNode) : List PNode :=
  let consts := cs.filter isConstKV
  let constKeys := consts.filterMap kvKeyVal
  let rest := cs.filter (fun x =>
    match x with
    | .keyValue k _ => decide (k.value ∉ constKeys)
    | _ => true)
  if consts.isEmpty then rest
  else .obj .plain ⟨.vStr "_constants", .CONSTANT⟩ consts :: rest

/-- The post-processing of `Parser._parse_object` after the children have
been parsed: array re-classification when every child is a bare value,
key/value-to-comparison rewriting inside trigger blocks, then constant
hoisting. -/
def postProcessObject (tag : BlockTag) (ctx : VNode) (children : List PNode) : PNode :=
  if children.all isValueNode then
    .arr ctx (children.filterMap (fun n =>
      match n with
      | .value v => some v
      | _ => none))
  else
    let cs1 := if tag = .trigger then
        children.map (fun n =>
          match n with
          | .keyValue k v => .comparison k (.vStr "=") v
          | x => x)
      else children
    .obj tag ctx (hoistConstants cs1)

mutual

/-- `Parser._parse`: dispatch on the current token. -/
def parseMain : Nat → List Token → Except PErr (PNode × List Token)
  | 0, _ => .error .outOfFuel
  | fuel + 1, ts =>
      match ts with
      | [] => .error .indexCrash
      | t :: _ =>
          if t.type = .STRING_LITERAL ∨ t.type = .NUMBER_LITERAL ∨
              t.type = .PERCENTAGE_LITERAL ∨ t.type = .BOOLEAN ∨ t.type = .DATE_LITERAL then
            do
              let (v, ts') ← parseValue ts
              .ok (.value v, ts')
          else if t.type ∈ identLike then
            do
              let kind ← getIdentifierType ts
              match kind with
              | .object => do
                  let (ctxTok, ts1) ← consumeTok ts
                    [.IDENTIFIER, .CONSTANT, .KEYWORD, .SCOPE, .MODIFIER, .EFFECT, .TRIGGER] none
                  (match ts1 with
                   | t1 :: _ =>
                       if t1.type = .OPEN_BRACE then parseObjectNode fuel ctxTok ts1
                       else do
                         let (_, ts2) ← consumeTok ts1 [.OPERATOR] (some (.vStr "="))
                         parseObjectNode fuel ctxTok ts2
                   | [] => .error .indexCrash)
              | .kv => parseKeyValue ts
              | .value => do
                  let (v, ts') ← parseValue ts
                  .ok (.value v, ts')
              | .comparison => parseComparison ts
          else .error (.unexpectedTok t)
termination_by structural fuel => fuel

/-- `Parser._parse_object`: consume the brace group and post-process. -/
def parseObjectNode : Nat → Token → List Token → Except PErr (PNode × List Token)
  | 0, _, _ => .error .outOfFuel
  | fuel + 1, ctxTok, ts => do
      let (_, ts1) ← consumeTok ts [.OPEN_BRACE] none
      let (children, ts2) ← parseObjChildren fuel ts1 []
      let (_, ts3) ← consumeTok ts2 [.CLOSE_BRACE] none
      .ok (postProcessObject (blockTagOf ctxTok.type) ⟨ctxTok.value, ctxTok.type⟩ children, ts3)
termination_by structural fuel => fuel

/-- Child loop of `Parser._parse_object`. -/
def parseObjChildren : Nat → List Token → List PNode → Except PErr (List PNode × List Token)
  | 0, _, _ => .error .outOfFuel
  | fuel + 1, ts, acc =>
      match ts with
      | [] => .error .indexCrash
      | t :: _ =>
          if t.type = .CLOSE_BRACE then .ok (acc, ts)
          else do
            let (n, ts') ← parseMain fuel ts
            parseObjChildren fuel ts' (acc ++ [n])
termination_by structural fuel => fuel

end

/-- Root loop of `Parser.parse_tokens`. -/
def parseRootChildren : Nat → List Token → List PNode → Except PErr (List PNode)
  | 0, _, _ => .error .outOfFuel
  | fuel + 1, ts, acc =>
      match ts with
      | [] => .error .indexCrash
      | t :: _ =>
          if t.type = .EOF then .ok acc
          else do
            let (n, ts') ← parseMain fuel ts
            parseRootChildren fuel ts' (acc ++ [n])
termination_by structural fuel => fuel

/-- `Parser.parse_tokens` (with comments stripped first, the default
config): the root `ObjectNode` with context value `"root"`. -/
def parseV1 (ts0 : List Token) : Except PErr PNode := do
  let ts := stripComments ts0
  let children ← parseRootChildren (8 * (ts.length + 1)) ts []
  .ok (.obj .plain ⟨.vStr "root", .ROOT⟩ children)

example : parseV1 [⟨.IDENTIFIER, .vStr "a", 1, 2⟩, ⟨.OPERATOR, .vStr "=", 1, 4⟩,
    ⟨.NUMBER_LITERAL, .vInt 5, 1, 6⟩, ⟨.EOF, .vNone, 1, 6⟩] =
    .ok (.obj .plain ⟨.vStr "root", .ROOT⟩
      [.keyValue ⟨.vStr "a", .IDENTIFIER⟩ ⟨.vInt 5, .NUMBER_LITERAL⟩]) := by
  with_unfolding_all rfl

/-! ## Node transformer (`src/scripts/generator/node_transformer.py`) -/

/-- A hashable Python value, usable as a dictionary key.  (The transformer
compares keys with Python `==`; the claims under verification only use
string keys, where Python equality and this structural equality agree.) -/
inductive TKey where
  | kStr (s : String)
  | kInt (n : Int)
  | kFloat (q : ℚ)
  | kBool (b : Bool)
  | kNone
  deriving DecidableEq, Repr

/-- A value of the normalized tree: the tagged wrappers
(`TransformedString`, `TransformedConstant`, `TransformedPercentage`,
`TransformedDate`, `TransformedComparison`), Python dictionaries and lists,
and the plain Python primitives. -/
inductive TValue where
  | str (s : String)
  | const (s : String)
  | pct (v : ℚ) (sign : String)
  | date (s : String)
  | comp (left : TValue) (op : PyVal) (right : TValue)
  | dict (entries : List (TKey × TValue))
  | list (xs : List TValue)
  | int (n : Int)
  | float (q : ℚ)
  | bool (b : Bool)
  | pyNone
  | rawStr (s : String)

/-- Insertion-ordered association list standing for a Python `dict`. -/
def TDict := List (TKey × TValue)

/-- Python `str(value)` on a token value. -/
def pyStrOfVal : PyVal → String
  | .vStr s => s
  | .vInt n => toString n
  | .vFloat q => pyStrFloat q
  | .vBool b => if b then "True" else "False"
  | .vNone => "None"

/-- Inject a raw Python token value into the normalized-value type. -/
def injectPy : PyVal → TValue
  | .vStr s => .rawStr s
  | .vInt n => .int n
  | .vFloat q => .float q
  | .vBool b => .bool b
  | .vNone => .pyNone

/-- Inject a raw token value into the key type (token values are always
hashable). -/
def injectPyKey : PyVal → TKey
  | .vStr s => .kStr s
  | .vInt n => .kInt n
  | .vFloat q => .kFloat q
  | .vBool b => .kBool b
  | .vNone => .kNone

/-- Which normalized values are hashable (usable as dictionary keys);
the tagged dataclasses and the containers raise `TypeError`. -/
def toTKey : TValue → Option TKey
  | .rawStr s => some (.kStr s)
  | .int n => some (.kInt n)
  | .float q => some (.kFloat q)
  | .bool b => some (.kBool b)
  | .pyNone => some .kNone
  | _ => none

/-- `if not isinstance(key, (str, int, float, bool)): key = key.value` from
`NodeTransformer._convert_object_node`: unwrap a tagged key to its payload.
The container cases cannot arise from `_convert_value_node` (they would
raise `AttributeError` in the source) and are left unchanged. -/
def kvUnwrap : TValue → TValue
  | .str s => .rawStr s
  | .const s => .rawStr s
  | .pct q _ => .float q
  | .date s => .rawStr s
  | v => v

/-- Ordered-dictionary lookup (Python `context.get(key)` / `key in context`). -/
def dictLookup : TDict → TKey → Option TValue
  | [], _ => none
  | (k', v) :: rest, k => if k' = k then some v else dictLookup rest k

/-- Ordered-dictionary assignment `context[key] = value`: update in place
when the key is present (keeping its position), append otherwise. -/
def dictSet : TDict → TKey → TValue → TDict
  | [], k, v => [(k, v)]
  | (k', w) :: rest, k, v =>
      if k' = k then (k, v) :: rest else (k', w) :: dictSet rest k v

/-- `NodeTransformer._store_in_context`: the repeated-key merge policy.
Keys in `always_list_keys` are collected into a list from the first
occurrence; other keys stay scalar on first occurrence and are promoted to
a two-element list on the second (or appended if the stored value is
already a list). -/
def storeInContext (alw : List String) (ctx : TDict) (k : TKey) (v : TValue) : TDict :=
  if (match k with
      | TKey.kStr s => decide (s ∈ alw)
      | _ => false) then
    match dictLookup ctx k with
    | none => dictSet ctx k (.list [v])
    | some (.list xs) => dictSet ctx k (.list (xs ++ [v]))
    | some w => dictSet ctx k (.list [w, v])
  else
    match dictLookup ctx k with
    | none => dictSet ctx k v
    | some (.list xs) => dictSet ctx k (.list (xs ++ [v]))
    | some w => dictSet ctx k (.list [w, v])

/-- `NodeTransformer._convert_value_node`: tag strings, constants and
percentages; every other literal (dates included) passes through as the
raw Python value. -/
def convertValueNode (vn : VNode) : Except String TValue :=
  match vn.type with
  | .STRING_LITERAL =>
      -- string-literal tokens always carry a `str` value
      (match vn.value with
       | .vStr s => .ok (.str s)
       | _ => .error "string literal without string value")
  | .CONSTANT =>
      (match vn.value with
       | .vStr s => .ok (.const s)
       | _ => .error "constant without string value")
  | .PERCENTAGE_LITERAL =>
      let s := pyStrOfVal vn.value
      let sign := if s.endsWith "%%" then "%%" else "%"
      (match pyFloatOfString (s.replace sign "") with
       | some q => .ok (.pct (q / 100) sign)
       | none => .error "ValueError: could not convert string to float")
  | _ => .ok (injectPy vn.value)

/-- `NodeTransformer._convert_comparison_node`. -/
def convertComparison (l : VNode) (op : PyVal) (r : VNode) : Except String TValue := do
  let left ← convertValueNode l
  let right ← convertValueNode r
  .ok (.comp left op right)

/-- `NodeTransformer._convert_array_node`: array elements are the
`ValueNode`s collected by the parser. -/
def convertArrayElems : List VNode → Except String (List TValue)
  | [] => .ok []
  | vn :: rest => do
      let v ← convertValueNode vn
      let vs ← convertArrayElems rest
      .ok (v :: vs)

mutual

/-- `NodeTransformer._convert_node`. -/
def convertNode (alw : List String) : PNode → Except String TValue
  | .value vn => convertValueNode vn
  | .keyValue _ vn => convertValueNode vn
  | .comparison l op r => convertComparison l op r
  | .arr _ elems => do
      let xs ← convertArrayElems elems
      .ok (.list xs)
  | .obj _ _ children => do
      let d ← convertChildren alw children []
      .ok (.dict d)

/-- The child loop of `NodeTransformer._convert_object_node`, threading
the `context` dictionary. -/
def convertChildren (alw : List String) : List PNode → TDict → Except String TDict
  | [], ctx => .ok ctx
  | child :: rest, ctx => do
      let ctx' ← convertChild alw child ctx
      convertChildren alw rest ctx'

/-- One iteration of `NodeTransformer._convert_object_node`'s child loop:
key/value pairs and nested objects go through `_store_in_context`;
comparisons are assigned directly under their converted left-hand side;
arrays are assigned (or appended to an existing list) under their context
value; bare `ValueNode` children have no branch and are dropped. -/
def convertChild (alw : List String) (child : PNode) (ctx : TDict) : Except String TDict :=
  match child with
  | .keyValue kn vn => do
      let key0 ← convertValueNode kn
      (match toTKey (kvUnwrap key0) with
       | some k => do
           let v ← convertValueNode vn
           .ok (storeInContext alw ctx k v)
       | none => .error "TypeError: unhashable type")
  | .comparison l op r => do
      let c ← convertComparison l op r
      let left ← convertValueNode l
      (match toTKey left with
       | some k => .ok (dictSet ctx k c)
       | none => .error "TypeError: unhashable type")
  | .arr ctxVN elems => do
      let k := injectPyKey ctxVN.value
      let xs ← convertArrayElems elems
      (match dictLookup ctx k with
       | none => .ok (dictSet ctx k (.list xs))
       | some (.list ys) => .ok (dictSet ctx k (.list (ys ++ [.list xs])))
       | some _ => .error "AttributeError: append")
  | .obj _ ctxVN children => do
      let k := injectPyKey ctxVN.value
      let d ← convertChildren alw children []
      .ok (storeInContext alw ctx k (.dict d))
  | .value _ => .ok ctx

end

/-- `NodeTransformer.__init__` + `transformed_tree`: requires the root
context value to be `"root"`, then converts the root object. -/
def transformV1 (alw : List String) (tree : PNode) : Except String TValue :=
  match tree with
  | .obj _ ctxVN _ =>
      if ctxVN.value = .vStr "root" then convertNode alw tree
      else .error "Root node must have root value"
  | _ => .error "Root node must have root value"

example :
    convertNode [] (.obj .plain ⟨.vStr "root", .ROOT⟩
      [.keyValue ⟨.vStr "a", .IDENTIFIER⟩ ⟨.vInt 5, .NUMBER_LITERAL⟩,
       .keyValue ⟨.vStr "a", .IDENTIFIER⟩ ⟨.vInt 6, .NUMBER_LITERAL⟩]) =
    .ok (.dict [(.kStr "a", .list [.int 5, .int 6])]) := by
  with_unfolding_all rfl

/-! ## v1 formatter (`_ClausewitzFormatter` in `src/scripts/generator/generator.py`) -/

/-- Python `s * n` for strings: `self.indent * level`. -/
def strRepeat (s : String) (n : Nat) : String :=
  String.join (List.replicate n s)

/-- Python `str(key)` on a dictionary key. -/
def pyStrOfKey : TKey → String
  | .kStr s => s
  | .kInt n => toString n
  | .kFloat q => pyStrFloat q
  | .kBool b => if b then "True" else "False"
  | .kNone => "None"

/-- Is a normalized value a Python `dict`? -/
def isDictTV : TValue → Bool
  | .dict _ => true
  | _ => false

/-- `_ClausewitzFormatter._format_scalar`.  The containers and the
comparison wrapper fall through to Python `str(value)`, whose object repr
we do not model (no claim evaluates that branch). -/
def fmtScalarV1 : TValue → String
  | .str s => "\"" ++ s.replace "\"" "\\\"" ++ "\""
  | .const s => s
  | .date s => s
  | .pct q sign =>
      let p := q * 100
      (if p.den = 1 then toString p.num else pyStrFloat p) ++ sign
  | .bool b => if b then "yes" else "no"
  | .float q => fixed6Strip q
  | .pyNone => "0"
  | .int n => toString n
  | .rawStr s => s
  | .dict _ => "<python object repr>"
  | .list _ => "<python object repr>"
  | .comp _ _ _ => "<python object repr>"

mutual

/-- `_ClausewitzFormatter.entry`.  The `dict` case is
`_ClausewitzFormatter.block` (header, entries at the next level, closing
brace) and the `list` case is `_ClausewitzFormatter._list`, both written
inline here so that the recursion is structural.  For a comparison the
source computes `left_key = left if left != key else key`, which always
equals the formatted left-hand side. -/
def fmtEntryV1 (ind : String) (key : TKey) (v : TValue) (level : Nat) : List String :=
  match v with
  | .dict d =>
      (strRepeat ind level ++ pyStrOfKey key ++ " = " ++ "\x7b") ::
        fmtEntriesV1 ind d (level + 1) ++ [strRepeat ind level ++ "\x7d"]
  | .list xs =>
      if xs.isEmpty then [strRepeat ind level ++ pyStrOfKey key ++ " = \x7b\x7d"]
      else if xs.all isDictTV then fmtBlocksV1 ind key xs level
      else
        (strRepeat ind level ++ pyStrOfKey key ++ " = \x7b") ::
          xs.map (fun item => strRepeat ind (level + 1) ++ fmtScalarV1 item) ++
          [strRepeat ind level ++ "\x7d"]
  | .comp l op r =>
      [strRepeat ind level ++ fmtScalarV1 l ++ " " ++ pyStrOfVal op ++ " " ++ fmtScalarV1 r]
  | v => [strRepeat ind level ++ pyStrOfKey key ++ " = " ++ fmtScalarV1 v]

/-- The entry loop of `_ClausewitzFormatter.block`. -/
def fmtEntriesV1 (ind : String) : TDict → Nat → List String
  | [], _ => []
  | (k, v) :: rest, level => fmtEntryV1 ind k v level ++ fmtEntriesV1 ind rest level

/-- The all-dictionaries branch of `_ClausewitzFormatter._list`: each
element renders as a `key = \x7b ... \x7d` block under the shared key. -/
def fmtBlocksV1 (ind : String) (key : TKey) : List TValue → Nat → List String
  | [], _ => []
  | .dict d :: rest, level =>
      ((strRepeat ind level ++ pyStrOfKey key ++ " = " ++ "\x7b") ::
        fmtEntriesV1 ind d (level + 1) ++ [strRepeat ind level ++ "\x7d"]) ++
      fmtBlocksV1 ind key rest level
  | _ :: rest, level => fmtBlocksV1 ind key rest level

end

/-- `_ClausewitzFormatter.block` as a standalone function (header line,
entries one level deeper, closing brace). -/
def fmtBlockV1 (ind : String) (name : Option String) (d : TDict) (level : Nat) :
    List String :=
  (strRepeat ind level ++
    (match name with
     | some n => n ++ " = "
     | none => "") ++ "\x7b") ::
  fmtEntriesV1 ind d (level + 1) ++ [strRepeat ind level ++ "\x7d"]

/-- `_ClausewitzFormatter._list` as a standalone function. -/
def fmtListV1 (ind : String) (key : TKey) (xs : List TValue) (level : Nat) :
    List String :=
  if xs.isEmpty then [strRepeat ind level ++ pyStrOfKey key ++ " = \x7b\x7d"]
  else if xs.all isDictTV then fmtBlocksV1 ind key xs level
  else
    (strRepeat ind level ++ pyStrOfKey key ++ " = \x7b") ::
      xs.map (fun item => strRepeat ind (level + 1) ++ fmtScalarV1 item) ++
      [strRepeat ind level ++ "\x7d"]

/-- Render a whole normalized document: the root mapping's entries at
nesting level 0, one construct per line (the document driver of the
pipeline, `format_document`, renders the root's entries exactly so and
joins them with newlines). -/
def formatRootV1 (ind : String) (d : TDict) : String :=
  String.intercalate "\n" (fmtEntriesV1 ind d 0)

/-- The full v1 pipeline `format(normalize(parse(tokenize(text))))` with
indent `"\t"`: lexer scan, comment stripping and parse, normalization,
then formatting of the root mapping. -/
def pipelineV1 (voc : Vocab) (alw : List String) (src : String) : Except String String := do
  let ts ← (scanV1 voc src).mapError (fun _ => "LexError")
  let tree ← (parseV1 ts).mapError (fun _ => "ParseError")
  let t ← transformV1 alw tree
  match t with
  | .dict d => .ok (formatRootV1 "\t" d)
  | _ => .error "root is not a mapping"

example : pipelineV1 {} [] "a = 5" = .ok "a = 5" := by with_unfolding_all rfl

/-! ## v2 formatter (`src/scripts/generator/v2/formatter.py`, nodes from
`src/scripts/generator/v2/nodes.py`) -/

/-- `ClausewitzScalar = str | int | float | bool`. -/
inductive CWScalar where
  | str (v : String)
  | int (n : Int)
  | float (q : ℚ)
  | bool (v : Bool)
  deriving DecidableEq, Repr

/-- `ClausewitzValue`: scalars, comparisons (whose sides are typed as
scalars), lists and blocks (ordered key/value entry lists). -/
inductive CWV where
  | scalar (v : CWScalar)
  | comp (left : CWScalar) (op : String) (right : CWScalar)
  | list (values : List CWV)
  | block (entries : List (String × CWV))

/-- `ClausewitzFormatter`'s configuration fields. -/
structure CWFmt where
  indent : String := "\t"
  inlineBraces : Bool := true

/-- `ClausewitzFormatter._indent`. -/
def cwIndent (F : CWFmt) (level : Nat) : String :=
  if level = 0 then "" else strRepeat F.indent level

/-- Characters allowed in an unquoted string by
`ClausewitzFormatter._needs_quotes`. -/
def cwAllowedChar (c : Char) : Bool :=
  pyIsAlnum c || c = '_' || c = '.' || c = '/' || c = '@' || c = ':'

/-- `ClausewitzFormatter._needs_quotes`. -/
def cwNeedsQuotes (s : String) : Bool :=
  if s.isEmpty then true
  else s.data.any (fun ch => pyIsSpace ch || !cwAllowedChar ch)

/-- Is a v2 value a plain scalar (`isinstance(value, (str, int, float, bool))`)? -/
def cwIsScalar : CWV → Bool
  | .scalar _ => true
  | _ => false

/-- `ClausewitzFormatter._format_scalar`: booleans as `yes`/`no`, strings
with the `string(...)` unwrapping quirk and quoting heuristic, numbers via
`str`.  Containers fall through to Python `str(object)`, whose repr we do
not model (no claim evaluates that branch). -/
def cwFmtScalar : CWV → String
  | .scalar (.bool b) => if b then "yes" else "no"
  | .scalar (.str v) =>
      if v.startsWith "string(" && v.endsWith ")" then
        "\"" ++ ((v.drop 7).dropRight 1) ++ "\""
      else if cwNeedsQuotes v then "\"" ++ v.replace "\"" "\\\"" ++ "\""
      else v
  | .scalar (.int n) => toString n
  | .scalar (.float q) => pyStrFloat q
  | _ => "<python object repr>"

/-- Python `str` of a scalar (used for a comparison's left side, which the
source renders with an f-string rather than `_format_scalar`). -/
def cwPyStr : CWScalar → String
  | .str s => s
  | .int n => toString n
  | .float q => pyStrFloat q
  | .bool b => if b then "True" else "False"

/-- `ClausewitzFormatter._format_comparison`.  The defensive checks that
the right-hand side is not a comparison or block are vacuous here because
the node type already restricts both sides to scalars. -/
def cwFmtComparison (l : CWScalar) (op : String) (r : CWScalar) : String :=
  cwPyStr l ++ " " ++ op ++ " " ++ cwFmtScalar (.scalar r)

/-- `ClausewitzFormatter._can_inline_block`: exactly one entry, whose
value is a plain scalar. -/
def cwCanInlineBlock (entries : List (String × CWV)) : Bool :=
  match entries with
  | [e] => cwIsScalar e.2
  | _ => false

/-- `ClausewitzFormatter._can_inline_list`: non-empty, at most 8 elements,
all plain scalars. -/
def cwCanInlineList (xs : List CWV) : Bool :=
  if xs.isEmpty || decide (xs.length > 8) then false
  else xs.all cwIsScalar

/-- `ClausewitzFormatter._format_inline_entry`: a non-inlinable block or
list falls through to the final `_format_scalar` rendering (the object
repr). -/
def cwFmtInlineEntry : String → CWV → String
  | key, .block entries =>
      (match entries, cwCanInlineBlock entries with
       | [e], true => key ++ " = \x7b " ++ cwFmtInlineEntry e.1 e.2 ++ " \x7d"
       | _, _ => key ++ " = " ++ cwFmtScalar (.block entries))
  | key, .list xs =>
      if cwCanInlineList xs then
        key ++ " = \x7b " ++ String.intercalate " " (xs.map cwFmtScalar) ++ " \x7d"
      else key ++ " = " ++ cwFmtScalar (.list xs)
  | key, .comp l op r => key ++ " = " ++ cwFmtComparison l op r
  | key, v => key ++ " = " ++ cwFmtScalar v

/-- `ClausewitzFormatter._format_inline_block`: raises `ValueError` on a
block that cannot be inlined. -/
def cwFmtInlineBlock (entries : List (String × CWV)) : Except String String :=
  match entries, cwCanInlineBlock entries with
  | [e], true => .ok (e.1 ++ " = " ++ cwFmtScalar e.2)
  | _, _ => .error "Cannot inline complex block"

/-- The element renderings of the inline branch of
`ClausewitzFormatter._format_list` (scalar items via `_format_scalar`,
block items via `_format_inline_block`). -/
def cwInlineParts : List CWV → Except String (List String)
  | [] => .ok []
  | .block es :: rest => do
      let s ← cwFmtInlineBlock es
      let r ← cwInlineParts rest
      .ok (s :: r)
  | x :: rest => do
      let r ← cwInlineParts rest
      .ok (cwFmtScalar x :: r)

mutual

/-- `ClausewitzFormatter.format_entry`.  The block case is
`format_block` and the list case is `_format_list`, both written inline
so that the recursion is structural. -/
def cwFormatEntry (F : CWFmt) (key : String) (v : CWV) (level : Nat) :
    Except String (List String) :=
  match v with
  | .block entries =>
      if F.inlineBraces && cwCanInlineBlock entries then
        .ok [cwIndent F level ++ key ++ " = \x7b " ++
          String.intercalate " " (entries.map (fun e => cwFmtInlineEntry e.1 e.2)) ++ " \x7d"]
      else do
        let body ← cwFormatEntries F entries (level + 1)
        .ok ((cwIndent F level ++ key ++ " = \x7b") :: body ++ [cwIndent F level ++ "\x7d"])
  | .list xs =>
      if xs.isEmpty then .ok [cwIndent F level ++ key ++ " = \x7b\x7d"]
      else if F.inlineBraces && cwCanInlineList xs then do
        let parts ← cwInlineParts xs
        .ok [cwIndent F level ++ key ++ " = \x7b " ++ String.intercalate " " parts ++ " \x7d"]
      else do
        let items ← cwListItems F xs (level + 1)
        .ok ((cwIndent F level ++ key ++ " = \x7b") :: items ++ [cwIndent F level ++ "\x7d"])
  | .comp l op r => .ok [cwIndent F level ++ cwFmtComparison l op r]
  | v => .ok [cwIndent F level ++ key ++ " = " ++ cwFmtScalar v]

/-- The entry loop of `ClausewitzFormatter.format_block`. -/
def cwFormatEntries (F : CWFmt) : List (String × CWV) → Nat → Except String (List String)
  | [], _ => .ok []
  | (k, v) :: rest, level => do
      let a ← cwFormatEntry F k v level
      let b ← cwFormatEntries F rest level
      .ok (a ++ b)

/-- The item loop of the multi-line branch of
`ClausewitzFormatter._format_list`: block items render as anonymous brace
groups, comparisons and scalars one per line. -/
def cwListItems (F : CWFmt) : List CWV → Nat → Except String (List String)
  | [], _ => .ok []
  | item :: rest, level => do
      let lines ←
        (match item with
         | .block es => do
             let inner ← cwFormatEntries F es (level + 1)
             .ok ((cwIndent F level ++ "\x7b") :: inner ++ [cwIndent F level ++ "\x7d"])
         | .comp l op r => .ok [cwIndent F level ++ cwFmtComparison l op r]
         | x => .ok [cwIndent F level ++ cwFmtScalar x])
      let rest' ← cwListItems F rest level
      .ok (lines ++ rest')

end

/-- `ClausewitzFormatter.format_block` as a standalone function. -/
def cwFormatBlock (F : CWFmt) (name : String) (entries : List (String × CWV))
    (level : Nat) : Except String (List String) :=
  if F.inlineBraces && cwCanInlineBlock entries then
    .ok [cwIndent F level ++ name ++ " = \x7b " ++
      String.intercalate " " (entries.map (fun e => cwFmtInlineEntry e.1 e.2)) ++ " \x7d"]
  else do
    let body ← cwFormatEntries F entries (level + 1)
    .ok ((cwIndent F level ++ name ++ " = \x7b") :: body ++ [cwIndent F level ++ "\x7d"])

/-- `ClausewitzFormatter._format_list` as a standalone function. -/
def cwFormatList (F : CWFmt) (key : String) (xs : List CWV) (level : Nat) :
    Except String (List String) :=
  if xs.isEmpty then .ok [cwIndent F level ++ key ++ " = \x7b\x7d"]
  else if F.inlineBraces && cwCanInlineList xs then do
    let parts ← cwInlineParts xs
    .ok [cwIndent F level ++ key ++ " = \x7b " ++ String.intercalate " " parts ++ " \x7d"]
  else do
    let items ← cwListItems F xs (level + 1)
    .ok ((cwIndent F level ++ key ++ " = \x7b") :: items ++ [cwIndent F level ++ "\x7d"])

example :
    cwFormatList {} "k" [.scalar (.int 1), .scalar (.int 2)] 0 =
      .ok ["k = \x7b 1 2 \x7d"] := by with_unfolding_all rfl

example :
    cwFormatList {} "k" [.scalar (.int 1), .comp (.str "a") "<" (.int 2)] 0 =
      .ok ["k = \x7b", "\t1", "\ta < 2", "\x7d"] := by with_unfolding_all rfl

/-! ## Pipeline composition helpers and concrete documents -/

/-- Lexer scan followed by the parser (the front half of the pipeline). -/
def lexParseV1 (voc : Vocab) (s : String) : Except String PNode :=
  match scanV1 voc s with
  | .error _ => .error "LexError"
  | .ok ts => (parseV1 ts).mapError (fun _ => "ParseError")

/-- The document `a = 'x"y'`: a single-quoted string literal containing a
double quote (written with `Char.ofNat 39` to spell the single quote). -/
def c1Doc : String :=
  "a = " ++ String.singleton (Char.ofNat 39) ++ "x\"y" ++ String.singleton (Char.ofNat 39)

/-- The dictionary key that one child of `_convert_object_node` writes to,
if any: key/value pairs write to their converted (and unwrapped) key,
comparisons to their converted left-hand side, arrays and nested objects
to their context token's value; bare value children write nothing.
`none` for a key/comparison whose conversion fails or is unhashable (in
which case `convertChild` errors as well). -/
def childKeyOf (c : PNode) : Option TKey :=
  match c with
  | .value _ => none
  | .keyValue kn _ =>
      (match convertValueNode kn with
       | .ok k0 => toTKey (kvUnwrap k0)
       | .error _ => none)
  | .comparison l _ _ =>
      (match convertValueNode l with
       | .ok v => toTKey v
       | .error _ => none)
  | .arr ctxVN _ => some (injectPyKey ctxVN.value)
  | .obj _ ctxVN _ => some (injectPyKey ctxVN.value)

/-- A block child that goes through the `_store_in_context` merge policy:
either a key/value pair whose converted key is `k` and whose converted
value is `v`, or a nested object stored under its context value `k` whose
children convert to the mapping carried by `v`. -/
def mergeChild (alw : List String) (c : PNode) (k : TKey) (v : TValue) : Prop :=
  (∃ kn vn, c = .keyValue kn vn ∧
     (∃ k0, convertValueNode kn = .ok k0 ∧ toTKey (kvUnwrap k0) = some k) ∧
     convertValueNode vn = .ok v) ∨
  (∃ tag ctxVN cs, c = .obj tag ctxVN cs ∧ injectPyKey ctxVN.value = k ∧
     (∃ dd, convertChildren alw cs [] = .ok dd ∧ v = .dict dd))

/-! ## Claim theorems: concrete end-to-end claims -/

/-- C4: the literal `50%` lexes to a percentage token, normalizes to a
tagged percentage with value 0.5 (= 1/2) and sign variant `%`, and is
re-emitted by the formatter exactly as `50%`; the literal `12.5%%`
normalizes to value 0.125 (= 1/8) with sign variant `%%` and reformats to
exactly `12.5%%` (the stored value is the literal divided by 100, and the
formatter multiplies by 100, drops the trailing `.0` when integral, and
appends the recorded sign variant). -/
theorem C4_percentage_roundtrip :
    scanV1 {} "50%" =
      .ok [⟨.PERCENTAGE_LITERAL, .vStr "50%", 1, 4⟩, ⟨.EOF, .vNone, 1, 4⟩] ∧
    convertValueNode ⟨.vStr "50%", .PERCENTAGE_LITERAL⟩ = .ok (.pct (1 / 2) "%") ∧
    fmtScalarV1 (.pct (1 / 2) "%") = "50%" ∧
    scanV1 {} "12.5%%" =
      .ok [⟨.PERCENTAGE_LITERAL, .vStr "12.5%%", 1, 7⟩, ⟨.EOF, .vNone, 1, 7⟩] ∧
    convertValueNode ⟨.vStr "12.5%%", .PERCENTAGE_LITERAL⟩ = .ok (.pct (1 / 8) "%%") ∧
    fmtScalarV1 (.pct (1 / 8) "%%") = "12.5%%" := by
  refine ⟨?_, ?_, ?_, ?_, ?_, ?_⟩ <;> with_unfolding_all rfl

/-- C5: parser disambiguation scenarios.  `foo = { bar = 1 }` parses as an
object node with a single key/value child; `foo = { 1 2 3 }` parses as a
list (array) node of three numbers; `foo > 5` parses as a comparison node;
and `foo = bar` inside a trigger-tagged block (here `limit`, supplied as a
trigger by the vocabulary) becomes a comparison with operator `=`, which
normalization stores under its left-hand side. -/
theorem C5_disambiguation :
    lexParseV1 {} "foo = \x7b bar = 1 \x7d" =
      .ok (.obj .plain ⟨.vStr "root", .ROOT⟩
        [.obj .plain ⟨.vStr "foo", .IDENTIFIER⟩
          [.keyValue ⟨.vStr "bar", .IDENTIFIER⟩ ⟨.vInt 1, .NUMBER_LITERAL⟩]]) ∧
    lexParseV1 {} "foo = \x7b 1 2 3 \x7d" =
      .ok (.obj .plain ⟨.vStr "root", .ROOT⟩
        [.arr ⟨.vStr "foo", .IDENTIFIER⟩
          [⟨.vInt 1, .NUMBER_LITERAL⟩, ⟨.vInt 2, .NUMBER_LITERAL⟩,
           ⟨.vInt 3, .NUMBER_LITERAL⟩]]) ∧
    lexParseV1 {} "foo > 5" =
      .ok (.obj .plain ⟨.vStr "root", .ROOT⟩
        [.comparison ⟨.vStr "foo", .IDENTIFIER⟩ (.vStr ">")
          ⟨.vInt 5, .NUMBER_LITERAL⟩]) ∧
    lexParseV1 { triggers := ["limit"] } "limit = \x7b foo = bar \x7d" =
      .ok (.obj .plain ⟨.vStr "root", .ROOT⟩
        [.obj .trigger ⟨.vStr "limit", .TRIGGER⟩
          [.comparison ⟨.vStr "foo", .IDENTIFIER⟩ (.vStr "=")
            ⟨.vStr "bar", .IDENTIFIER⟩]]) ∧
    transformV1 [] (.obj .plain ⟨.vStr "root", .ROOT⟩
        [.obj .trigger ⟨.vStr "limit", .TRIGGER⟩
          [.comparison ⟨.vStr "foo", .IDENTIFIER⟩ (.vStr "=")
            ⟨.vStr "bar", .IDENTIFIER⟩]]) =
      .ok (.dict [(.kStr "limit",
        .dict [(.kStr "foo", .comp (.rawStr "foo") (.vStr "=") (.rawStr "bar"))])]) := by
  refine ⟨?_, ?_, ?_, ?_, ?_⟩ <;> with_unfolding_all rfl

/-- C6: claimed behavior is fail-fast tokenization that surfaces lexer
errors.  The scanning loop of the v1 lexer does raise `UnexpectedCharacter`
with the correct 1-based position on input `$`, but `Lexer.tokenize`
catches the `LexerError` and returns the empty token list, so the caller
observes `[]` as if tokenization succeeded.  For the unterminated string
`"ab`, the error that is raised is the generic
`Attempt to advance beyond end of input` at the end-of-input position
(line 1, column 4), not an `UnterminatedString` error at the string's
start, and it is also swallowed into `[]`. -/
theorem C6_tokenize_swallows_errors :
    scanV1 {} "$" = .error (.unexpectedChar '$' 1 1) ∧
    tokenizeV1 {} "$" = .ok [] ∧
    scanV1 {} "\"ab" = .error (.advancePastEnd 1 4) ∧
    tokenizeV1 {} "\"ab" = .ok [] := by
  refine ⟨?_, ?_, ?_, ?_⟩ <;> with_unfolding_all rfl

/-- C8: claimed behavior is that date literals are wrapped in the tagged
`TransformedDate` form.  The lexer does classify `1936.1.1` as a date
token, but `NodeTransformer._convert_value_node` has no branch for
`DATE_LITERAL`: the token's raw string passes through untagged (it is
still re-emitted verbatim by the formatter, but as a plain string,
indistinguishable from other plain strings). -/
theorem C8_date_not_tagged :
    scanV1 {} "1936.1.1" =
      .ok [⟨.DATE_LITERAL, .vStr "1936.1.1", 1, 9⟩, ⟨.EOF, .vNone, 1, 9⟩] ∧
    convertValueNode ⟨.vStr "1936.1.1", .DATE_LITERAL⟩ = .ok (.rawStr "1936.1.1") ∧
    fmtScalarV1 (.rawStr "1936.1.1") = "1936.1.1" ∧
    (∀ s : String, convertValueNode ⟨.vStr s, .DATE_LITERAL⟩ ≠ .ok (.date s)) := by
  refine ⟨?_, ?_, ?_, ?_⟩
  · with_unfolding_all rfl
  · with_unfolding_all rfl
  · with_unfolding_all rfl
  · intro s h
    simp [convertValueNode, injectPy] at h

/-- C1: claimed behavior is byte-stability of the pipeline applied twice
to any accepted document.  The document `a = 'x"y'` is accepted (the lexer
reads single-quoted strings and stops at the matching quote), and one
pipeline pass formats it as `a = "x\"y"` — the formatter escapes the inner
double quote.  But the lexer honors no escape convention, so scanning that
output stops at the escaped quote and then fails at the unterminated final
quote; `tokenize` swallows the error into `[]`, on which the parser raises
at once.  The second pipeline application therefore fails instead of
reproducing the first output. -/
theorem C1_not_byte_stable :
    pipelineV1 {} [] c1Doc = .ok "a = \"x\\\"y\"" ∧
    scanV1 {} "a = \"x\\\"y\"" = .error (.advancePastEnd 1 11) ∧
    tokenizeV1 {} "a = \"x\\\"y\"" = .ok [] ∧
    parseV1 [] = .error .indexCrash ∧
    pipelineV1 {} [] "a = \"x\\\"y\"" = .error "LexError" := by
  refine ⟨?_, ?_, ?_, ?_, ?_⟩ <;> with_unfolding_all rfl

/-- C10: an empty brace group `k = { }` is re-classified by the parser as
an array node with no elements (the all-bare-values check is vacuously
true), normalizes to an empty list, and both formatters render it as the
single line `k = {}` — no space between the braces — prefixed by the
indentation of whatever nesting level it appears at. -/
theorem C10_empty_brace_group :
    lexParseV1 {} "k = \x7b \x7d" =
      .ok (.obj .plain ⟨.vStr "root", .ROOT⟩ [.arr ⟨.vStr "k", .IDENTIFIER⟩ []]) ∧
    transformV1 [] (.obj .plain ⟨.vStr "root", .ROOT⟩ [.arr ⟨.vStr "k", .IDENTIFIER⟩ []]) =
      .ok (.dict [(.kStr "k", .list [])]) ∧
    (∀ (key ind : String) (level : Nat),
      fmtListV1 ind (.kStr key) [] level =
        [strRepeat ind level ++ key ++ " = \x7b\x7d"]) ∧
    (∀ (F : CWFmt) (key : String) (level : Nat),
      cwFormatList F key [] level = .ok [cwIndent F level ++ key ++ " = \x7b\x7d"]) := by
  refine ⟨?_, ?_, ?_, ?_⟩
  · with_unfolding_all rfl
  · with_unfolding_all rfl
  · intro key ind level
    simp [fmtListV1, pyStrOfKey]
  · intro F key level
    simp [cwFormatList]

/-- C2 counterexample: in the block `b = { k = { 1 2 } k = 3 }` the key
`k` (not flagged repeatable) occurs exactly twice, so the claim requires
its normalized value to be the two-element list `[[1, 2], 3]` in encounter
order.  The code instead appends the second occurrence into the existing
list, producing the flattened three-element list `[1, 2, 3]`. -/
theorem C2_counterexample :
    convertNode [] (.obj .plain ⟨.vStr "b", .IDENTIFIER⟩
      [.arr ⟨.vStr "k", .IDENTIFIER⟩
        [⟨.vInt 1, .NUMBER_LITERAL⟩, ⟨.vInt 2, .NUMBER_LITERAL⟩],
       .keyValue ⟨.vStr "k", .IDENTIFIER⟩ ⟨.vInt 3, .NUMBER_LITERAL⟩]) =
      .ok (.dict [(.kStr "k", .list [.int 1, .int 2, .int 3])]) ∧
    TValue.list [.int 1, .int 2, .int 3] ≠
      TValue.list [.list [.int 1, .int 2], .int 3] := by
  constructor
  · with_unfolding_all rfl
  · simp

/-- C3 counterexample: in a trigger-tagged block the parser's
key/value-to-comparison rewrite runs before constant hoisting, so the
constant-keyed pair `@foo = 1` becomes a comparison node and no
`_constants` sub-block is created; normalization then raises (`TypeError`,
the comparison's `TransformedConstant` left side being unhashable) instead
of producing a block with the pair inside `_constants`. -/
theorem C3_counterexample :
    postProcessObject .trigger ⟨.vStr "limit", .TRIGGER⟩
      [.keyValue ⟨.vStr "@foo", .CONSTANT⟩ ⟨.vInt 1, .NUMBER_LITERAL⟩] =
      .obj .trigger ⟨.vStr "limit", .TRIGGER⟩
        [.comparison ⟨.vStr "@foo", .CONSTANT⟩ (.vStr "=") ⟨.vInt 1, .NUMBER_LITERAL⟩] ∧
    convertNode [] (postProcessObject .trigger ⟨.vStr "limit", .TRIGGER⟩
      [.keyValue ⟨.vStr "@foo", .CONSTANT⟩ ⟨.vInt 1, .NUMBER_LITERAL⟩]) =
      .error "TypeError: unhashable type" := by
  constructor
  · with_unfolding_all rfl
  · with_unfolding_all rfl

/-! ## Dictionary and merge-policy lemmas -/

theorem dictLookup_dictSet_self (ctx : TDict) (k : TKey) (v : TValue) :
    dictLookup (dictSet ctx k v) k = some v := by
  induction ctx with
  | nil => simp [dictSet, dictLookup]
  | cons p rest ih =>
      obtain ⟨k', w⟩ := p
      by_cases h : k' = k
      · simp [dictSet, dictLookup, h]
      · simp [dictSet, dictLookup, h, ih]

theorem dictLookup_dictSet_ne (ctx : TDict) {k0 k : TKey} (v : TValue) (h : k0 ≠ k) :
    dictLookup (dictSet ctx k0 v) k = dictLookup ctx k := by
  induction ctx with
  | nil => simp [dictSet, dictLookup, h]
  | cons p rest ih =>
      obtain ⟨k', w⟩ := p
      by_cases hk : k' = k0
      · subst hk
        simp [dictSet, dictLookup, h]
      · by_cases hk' : k' = k
        · subst hk'
          simp [dictSet, dictLookup, hk]
        · simp [dictSet, dictLookup, hk, hk', ih]

theorem dictSet_ne_nil (ctx : TDict) (k : TKey) (v : TValue) :
    dictSet ctx k v ≠ [] := by
  cases ctx with
  | nil => simp [dictSet]
  | cons p rest =>
      obtain ⟨k', w⟩ := p
      by_cases h : k' = k <;> simp [dictSet, h]

theorem dictSet_head_key (ctx : TDict) (k : TKey) (v : TValue) (h : ctx ≠ []) :
    ((dictSet ctx k v).head?).map Prod.fst = (ctx.head?).map Prod.fst := by
  cases ctx with
  | nil => exact absurd rfl h
  | cons p rest =>
      obtain ⟨k', w⟩ := p
      by_cases hk : k' = k
      · subst hk
        simp [dictSet]
      · simp [dictSet, hk]

theorem dictLookup_store_ne (alw : List String) (ctx : TDict) {k0 k : TKey}
    (v : TValue) (h : k0 ≠ k) :
    dictLookup (storeInContext alw ctx k0 v) k = dictLookup ctx k := by
  unfold storeInContext
  split
  · split <;> exact dictLookup_dictSet_ne ctx _ h
  · split <;> exact dictLookup_dictSet_ne ctx _ h

theorem store_ne_nil (alw : List String) (ctx : TDict) (k : TKey) (v : TValue) :
    storeInContext alw ctx k v ≠ [] := by
  unfold storeInContext
  split
  · split <;> exact dictSet_ne_nil ctx _ _
  · split <;> exact dictSet_ne_nil ctx _ _

theorem store_head_key (alw : List String) (ctx : TDict) (k : TKey) (v : TValue)
    (h : ctx ≠ []) :
    ((storeInContext alw ctx k v).head?).map Prod.fst = (ctx.head?).map Prod.fst := by
  unfold storeInContext
  split
  · split <;> exact dictSet_head_key ctx _ _ h
  · split <;> exact dictSet_head_key ctx _ _ h

/-- `_store_in_context` on a key that is not flagged repeatable and not yet
present: plain assignment. -/
theorem store_fresh_notalw (alw : List String) (ctx : TDict) (k : TKey) (v : TValue)
    (hal : ∀ s, k = .kStr s → s ∉ alw) (h0 : dictLookup ctx k = none) :
    storeInContext alw ctx k v = dictSet ctx k v := by
  cases k with
  | kStr s =>
      have hs : s ∉ alw := hal s rfl
      simp [storeInContext, hs, h0]
  | kInt n => simp [storeInContext, h0]
  | kFloat q => simp [storeInContext, h0]
  | kBool b => simp [storeInContext, h0]
  | kNone => simp [storeInContext, h0]

/-- `_store_in_context` on a non-repeatable key whose current value is not
a list: promotion to a two-element list. -/
theorem store_second_notalw (alw : List String) (ctx : TDict) (k : TKey) (v w : TValue)
    (hal : ∀ s, k = .kStr s → s ∉ alw) (h0 : dictLookup ctx k = some w)
    (hw : ∀ xs, w ≠ .list xs) :
    storeInContext alw ctx k v = dictSet ctx k (.list [w, v]) := by
  cases k with
  | kStr s =>
      have hs : s ∉ alw := hal s rfl
      cases w <;> simp_all [storeInContext, hs, h0]
  | kInt n => cases w <;> simp_all [storeInContext, h0]
  | kFloat q => cases w <;> simp_all [storeInContext, h0]
  | kBool b => cases w <;> simp_all [storeInContext, h0]
  | kNone => cases w <;> simp_all [storeInContext, h0]

/-- `_store_in_context` on a repeatable-flagged key not yet present: the
value is wrapped into a one-element list. -/
theorem store_fresh_alw (alw : List String) (ctx : TDict) (s : String) (v : TValue)
    (hs : s ∈ alw) (h0 : dictLookup ctx (.kStr s) = none) :
    storeInContext alw ctx (.kStr s) v = dictSet ctx (.kStr s) (.list [v]) := by
  simp [storeInContext, hs, h0]

/-- `_convert_value_node` never produces a Python list. -/
theorem convertValueNode_ne_list (vn : VNode) (v : TValue)
    (h : convertValueNode vn = .ok v) : ∀ xs, v ≠ .list xs := by
  intro xs
  simp only [convertValueNode] at h
  split at h
  · split at h
    · cases h
      simp
    · cases h
  · split at h
    · cases h
      simp
    · cases h
  · split at h
    · cases h
      simp
    · cases h
  · cases h
    cases vn.value <;> simp [injectPy]

/-- A merge-policy child (key/value pair or nested object) converts by
storing its value through `_store_in_context`. -/
theorem convertChild_merge (alw : List String) (c : PNode) (k : TKey) (v : TValue)
    (ctx : TDict) (h : mergeChild alw c k v) :
    convertChild alw c ctx = .ok (storeInContext alw ctx k v) := by
  rcases h with ⟨kn, vn, rfl, ⟨k0, hk0, hke⟩, hv⟩ | ⟨tag, ctxVN, cs, rfl, hk, ⟨dd, hdd, rfl⟩⟩
  · simp [convertChild, hk0, hke, hv, Bind.bind, Except.bind]
  · subst hk
    simp [convertChild, hdd, Bind.bind, Except.bind]

/-- A child that does not write to key `k` leaves the lookup at `k`
unchanged. -/
theorem convertChild_preserve (alw : List String) (c : PNode) (ctx ctx' : TDict)
    (k : TKey) (h : convertChild alw c ctx = .ok ctx') (hk : childKeyOf c ≠ some k) :
    dictLookup ctx' k = dictLookup ctx k := by
  cases c with
  | value vn =>
      simp [convertChild] at h
      rw [← h]
  | keyValue kn vn =>
      cases hkn : convertValueNode kn with
      | error e => simp [convertChild, hkn, Bind.bind, Except.bind] at h
      | ok k0 =>
          cases hkt : toTKey (kvUnwrap k0) with
          | none => simp [convertChild, hkn, hkt, Bind.bind, Except.bind] at h
          | some k1 =>
              cases hvn : convertValueNode vn with
              | error e => simp [convertChild, hkn, hkt, hvn, Bind.bind, Except.bind] at h
              | ok v =>
                  have hne : k1 ≠ k := by
                    intro he
                    exact hk (by simp [childKeyOf, hkn, hkt, he])
                  simp [convertChild, hkn, hkt, hvn, Bind.bind, Except.bind] at h
                  rw [← h]
                  exact dictLookup_store_ne alw ctx v hne
  | comparison l op r =>
      cases hl : convertValueNode l with
      | error e => simp [convertChild, convertComparison, hl, Bind.bind, Except.bind] at h
      | ok lv =>
          cases hr : convertValueNode r with
          | error e => simp [convertChild, convertComparison, hl, hr, Bind.bind, Except.bind] at h
          | ok rv =>
              cases hkt : toTKey lv with
              | none => simp [convertChild, convertComparison, hl, hr, hkt, Bind.bind, Except.bind] at h
              | some k1 =>
                  have hne : k1 ≠ k := by
                    intro he
                    exact hk (by simp [childKeyOf, hl, hkt, he])
                  simp [convertChild, convertComparison, hl, hr, hkt, Bind.bind, Except.bind] at h
                  rw [← h]
                  exact dictLookup_dictSet_ne ctx _ hne
  | arr ctxVN elems =>
      have hne : injectPyKey ctxVN.value ≠ k := by
        intro he
        exact hk (by simp [childKeyOf, he])
      cases he : convertArrayElems elems with
      | error e => simp [convertChild, he, Bind.bind, Except.bind] at h
      | ok xs =>
          cases hlook : dictLookup ctx (injectPyKey ctxVN.value) with
          | none =>
              simp [convertChild, he, hlook, Bind.bind, Except.bind] at h
              rw [← h]
              exact dictLookup_dictSet_ne ctx _ hne
          | some w =>
              cases w <;> simp [convertChild, he, hlook, Bind.bind, Except.bind] at h <;>
                (rw [← h]; exact dictLookup_dictSet_ne ctx _ hne)
  | obj tag ctxVN cs =>
      have hne : injectPyKey ctxVN.value ≠ k := by
        intro he
        exact hk (by simp [childKeyOf, he])
      cases hd : convertChildren alw cs [] with
      | error e => simp [convertChild, hd, Bind.bind, Except.bind] at h
      | ok dd =>
          simp [convertChild, hd, Bind.bind, Except.bind] at h
          rw [← h]
          exact dictLookup_store_ne alw ctx _ hne

/-- Converting one child keeps the context dictionary non-empty and keeps
its first key (Python dictionaries update in place and append new keys at
the end). -/
theorem convertChild_head (alw : List String) (c : PNode) (ctx ctx' : TDict)
    (h : convertChild alw c ctx = .ok ctx') (hne : ctx ≠ []) :
    ctx' ≠ [] ∧ (ctx'.head?).map Prod.fst = (ctx.head?).map Prod.fst := by
  cases c with
  | value vn =>
      simp [convertChild] at h
      rw [← h]
      exact ⟨hne, rfl⟩
  | keyValue kn vn =>
      cases hkn : convertValueNode kn with
      | error e => simp [convertChild, hkn, Bind.bind, Except.bind] at h
      | ok k0 =>
          cases hkt : toTKey (kvUnwrap k0) with
          | none => simp [convertChild, hkn, hkt, Bind.bind, Except.bind] at h
          | some k1 =>
              cases hvn : convertValueNode vn with
              | error e => simp [convertChild, hkn, hkt, hvn, Bind.bind, Except.bind] at h
              | ok v =>
                  simp [convertChild, hkn, hkt, hvn, Bind.bind, Except.bind] at h
                  rw [← h]
                  exact ⟨store_ne_nil alw ctx k1 v, store_head_key alw ctx k1 v hne⟩
  | comparison l op r =>
      cases hl : convertValueNode l with
      | error e => simp [convertChild, convertComparison, hl, Bind.bind, Except.bind] at h
      | ok lv =>
          cases hr : convertValueNode r with
          | error e => simp [convertChild, convertComparison, hl, hr, Bind.bind, Except.bind] at h
          | ok rv =>
              cases hkt : toTKey lv with
              | none => simp [convertChild, convertComparison, hl, hr, hkt, Bind.bind, Except.bind] at h
              | some k1 =>
                  simp [convertChild, convertComparison, hl, hr, hkt, Bind.bind, Except.bind] at h
                  rw [← h]
                  exact ⟨dictSet_ne_nil ctx _ _, dictSet_head_key ctx _ _ hne⟩
  | arr ctxVN elems =>
      cases he : convertArrayElems elems with
      | error e => simp [convertChild, he, Bind.bind, Except.bind] at h
      | ok xs =>
          cases hlook : dictLookup ctx (injectPyKey ctxVN.value) with
          | none =>
              simp [convertChild, he, hlook, Bind.bind, Except.bind] at h
              rw [← h]
              exact ⟨dictSet_ne_nil ctx _ _, dictSet_head_key ctx _ _ hne⟩
          | some w =>
              cases w <;> simp [convertChild, he, hlook, Bind.bind, Except.bind] at h <;>
                (rw [← h]; exact ⟨dictSet_ne_nil ctx _ _, dictSet_head_key ctx _ _ hne⟩)
  | obj tag ctxVN cs =>
      cases hd : convertChildren alw cs [] with
      | error e => simp [convertChild, hd, Bind.bind, Except.bind] at h
      | ok dd =>
          simp [convertChild, hd, Bind.bind, Except.bind] at h
          rw [← h]
          exact ⟨store_ne_nil alw ctx _ _, store_head_key alw ctx _ _ hne⟩

/-- Split a successful conversion of `c :: cs`. -/
theorem convertChildren_cons_ok (alw : List String) (c : PNode) (cs : List PNode)
    (ctx d : TDict) (h : convertChildren alw (c :: cs) ctx = .ok d) :
    ∃ ctx1, convertChild alw c ctx = .ok ctx1 ∧ convertChildren alw cs ctx1 = .ok d := by
  cases hc : convertChild alw c ctx with
  | error e => simp [convertChildren, hc, Bind.bind, Except.bind] at h
  | ok ctx1 =>
      refine ⟨ctx1, rfl, ?_⟩
      simpa [convertChildren, hc, Bind.bind, Except.bind] using h

/-- Split a successful conversion of `xs ++ ys`. -/
theorem convertChildren_append_ok (alw : List String) (xs ys : List PNode)
    (ctx d : TDict) (h : convertChildren alw (xs ++ ys) ctx = .ok d) :
    ∃ mid, convertChildren alw xs ctx = .ok mid ∧ convertChildren alw ys mid = .ok d := by
  induction xs generalizing ctx with
  | nil => exact ⟨ctx, rfl, h⟩
  | cons c rest ih =>
      simp only [List.cons_append] at h
      obtain ⟨ctx1, hc, hrest⟩ := convertChildren_cons_ok alw c (rest ++ ys) ctx d h
      obtain ⟨mid, h1, h2⟩ := ih ctx1 hrest
      exact ⟨mid, by simp [convertChildren, hc, Bind.bind, Except.bind, h1], h2⟩

/-- A child list none of whose members writes to `k` leaves the lookup at
`k` unchanged. -/
theorem convertChildren_preserve (alw : List String) (cs : List PNode)
    (ctx d : TDict) (k : TKey) (h : convertChildren alw cs ctx = .ok d)
    (hk : ∀ c ∈ cs, childKeyOf c ≠ some k) :
    dictLookup d k = dictLookup ctx k := by
  induction cs generalizing ctx with
  | nil =>
      simp [convertChildren] at h
      rw [← h]
  | cons c rest ih =>
      obtain ⟨ctx1, hc, hrest⟩ := convertChildren_cons_ok alw c rest ctx d h
      have h1 := convertChild_preserve alw c ctx ctx1 k hc (hk c (by simp))
      have h2 := ih ctx1 hrest (fun x hx => hk x (by simp [hx]))
      rw [h2, h1]

/-- Converting a child list keeps the dictionary non-empty and keeps its
first key. -/
theorem convertChildren_head (alw : List String) (cs : List PNode)
    (ctx d : TDict) (h : convertChildren alw cs ctx = .ok d) (hne : ctx ≠ []) :
    d ≠ [] ∧ (d.head?).map Prod.fst = (ctx.head?).map Prod.fst := by
  induction cs generalizing ctx with
  | nil =>
      simp [convertChildren] at h
      rw [← h]
      exact ⟨hne, rfl⟩
  | cons c rest ih =>
      obtain ⟨ctx1, hc, hrest⟩ := convertChildren_cons_ok alw c rest ctx d h
      obtain ⟨hne1, hh1⟩ := convertChild_head alw c ctx ctx1 hc hne
      obtain ⟨hne2, hh2⟩ := ih ctx1 hrest hne1
      exact ⟨hne2, by rw [hh2, hh1]⟩

/-- Unpack a successful object conversion into its child-loop run. -/
theorem convertNode_obj_ok (alw : List String) (tag : BlockTag) (ctxV : VNode)
    (cs : List PNode) (d : TDict)
    (h : convertNode alw (.obj tag ctxV cs) = .ok (.dict d)) :
    convertChildren alw cs [] = .ok d := by
  cases hx : convertChildren alw cs [] with
  | error e => simp [convertNode, hx, Bind.bind, Except.bind] at h
  | ok dd =>
      simp [convertNode, hx, Bind.bind, Except.bind] at h
      rw [h]

/-- The value stored by a merge-policy child is never a Python list
(key/value values are converted scalars, nested objects convert to
mappings). -/
theorem mergeChild_ne_list (alw : List String) (c : PNode) (k : TKey) (v : TValue)
    (h : mergeChild alw c k v) : ∀ xs, v ≠ .list xs := by
  rcases h with ⟨kn, vn, _, _, hv⟩ | ⟨_, _, _, _, _, dd, _, rfl⟩
  · exact convertValueNode_ne_list vn v hv
  · intro xs
    simp

/-- C2 (amended): the repeated-key merge law of the node transformer for
occurrences that are key/value pairs or nested objects (the children that
go through `_store_in_context`), in a block where no other child writes to
the same key.  (1) A key not flagged repeatable occurring exactly once
normalizes to the stored value itself, not a one-element list.  (2) Such a
key occurring exactly twice normalizes to the two-element list of its
values in encounter order.  (3) A repeatable-flagged key normalizes to a
one-element list even for a single occurrence.  As stated in the original
claim the law fails for brace-list occurrences, which bypass
`_store_in_context` (see the counterexample). -/
theorem C2_merge_policy :
    (∀ (alw : List String) (tag : BlockTag) (ctxV : VNode) (pre post : List PNode)
       (c : PNode) (k : TKey) (v : TValue) (d : TDict),
       (∀ s, k = TKey.kStr s → s ∉ alw) →
       mergeChild alw c k v →
       (∀ x ∈ pre ++ post, childKeyOf x ≠ some k) →
       convertNode alw (.obj tag ctxV (pre ++ c :: post)) = .ok (.dict d) →
       dictLookup d k = some v) ∧
    (∀ (alw : List String) (tag : BlockTag) (ctxV : VNode)
       (pre mid post : List PNode) (c₁ c₂ : PNode) (k : TKey)
       (v₁ v₂ : TValue) (d : TDict),
       (∀ s, k = TKey.kStr s → s ∉ alw) →
       mergeChild alw c₁ k v₁ →
       mergeChild alw c₂ k v₂ →
       (∀ x ∈ pre ++ mid ++ post, childKeyOf x ≠ some k) →
       convertNode alw (.obj tag ctxV (pre ++ c₁ :: (mid ++ c₂ :: post))) = .ok (.dict d) →
       dictLookup d k = some (.list [v₁, v₂])) ∧
    (∀ (alw : List String) (tag : BlockTag) (ctxV : VNode) (pre post : List PNode)
       (c : PNode) (s : String) (v : TValue) (d : TDict),
       s ∈ alw →
       mergeChild alw c (.kStr s) v →
       (∀ x ∈ pre ++ post, childKeyOf x ≠ some (.kStr s)) →
       convertNode alw (.obj tag ctxV (pre ++ c :: post)) = .ok (.dict d) →
       dictLookup d (.kStr s) = some (.list [v])) := by
  refine ⟨?_, ?_, ?_⟩
  · intro alw tag ctxV pre post c k v d hal hmc hkeys h
    have hcc := convertNode_obj_ok alw tag ctxV _ d h
    obtain ⟨mid1, hpre, hrest⟩ := convertChildren_append_ok alw pre (c :: post) [] d hcc
    obtain ⟨ctx1, hc, hpost⟩ := convertChildren_cons_ok alw c post mid1 d hrest
    have hmidk : dictLookup mid1 k = none := by
      have := convertChildren_preserve alw pre [] mid1 k hpre
        (fun x hx => hkeys x (List.mem_append_left _ hx))
      simpa [dictLookup] using this
    have hm := convertChild_merge alw c k v mid1 hmc
    rw [hc] at hm
    injection hm with hm'
    have hc1 : dictLookup ctx1 k = some v := by
      rw [hm', store_fresh_notalw alw mid1 k v hal hmidk, dictLookup_dictSet_self]
    have hfinal := convertChildren_preserve alw post ctx1 d k hpost
      (fun x hx => hkeys x (List.mem_append_right _ hx))
    rw [hfinal, hc1]
  · intro alw tag ctxV pre mid post c₁ c₂ k v₁ v₂ d hal hm1 hm2 hkeys h
    have hcc := convertNode_obj_ok alw tag ctxV _ d h
    obtain ⟨d1, hpre, hrest⟩ := convertChildren_append_ok alw pre (c₁ :: (mid ++ c₂ :: post)) [] d hcc
    obtain ⟨d2, hc1, hrest2⟩ := convertChildren_cons_ok alw c₁ (mid ++ c₂ :: post) d1 d hrest
    obtain ⟨d3, hmid, hrest3⟩ := convertChildren_append_ok alw mid (c₂ :: post) d2 d hrest2
    obtain ⟨d4, hc2, hpost⟩ := convertChildren_cons_ok alw c₂ post d3 d hrest3
    have hd1k : dictLookup d1 k = none := by
      have := convertChildren_preserve alw pre [] d1 k hpre
        (fun x hx => hkeys x (List.mem_append_left _ (List.mem_append_left _ hx)))
      simpa [dictLookup] using this
    have hmm1 := convertChild_merge alw c₁ k v₁ d1 hm1
    rw [hc1] at hmm1
    injection hmm1 with hmm1'
    have hd2k : dictLookup d2 k = some v₁ := by
      rw [hmm1', store_fresh_notalw alw d1 k v₁ hal hd1k, dictLookup_dictSet_self]
    have hd3k : dictLookup d3 k = some v₁ := by
      have := convertChildren_preserve alw mid d2 d3 k hmid
        (fun x hx => hkeys x (List.mem_append_left _ (List.mem_append_right _ hx)))
      rw [this, hd2k]
    have hmm2 := convertChild_merge alw c₂ k v₂ d3 hm2
    rw [hc2] at hmm2
    injection hmm2 with hmm2'
    have hd4k : dictLookup d4 k = some (.list [v₁, v₂]) := by
      rw [hmm2',
        store_second_notalw alw d3 k v₂ v₁ hal hd3k (mergeChild_ne_list alw c₁ k v₁ hm1),
        dictLookup_dictSet_self]
    have hfinal := convertChildren_preserve alw post d4 d k hpost
      (fun x hx => hkeys x (List.mem_append_right _ hx))
    rw [hfinal, hd4k]
  · intro alw tag ctxV pre post c s v d hs hmc hkeys h
    have hcc := convertNode_obj_ok alw tag ctxV _ d h
    obtain ⟨mid1, hpre, hrest⟩ := convertChildren_append_ok alw pre (c :: post) [] d hcc
    obtain ⟨ctx1, hc, hpost⟩ := convertChildren_cons_ok alw c post mid1 d hrest
    have hmidk : dictLookup mid1 (.kStr s) = none := by
      have := convertChildren_preserve alw pre [] mid1 (.kStr s) hpre
        (fun x hx => hkeys x (List.mem_append_left _ hx))
      simpa [dictLookup] using this
    have hm := convertChild_merge alw c (.kStr s) v mid1 hmc
    rw [hc] at hm
    injection hm with hm'
    have hc1 : dictLookup ctx1 (.kStr s) = some (.list [v]) := by
      rw [hm', store_fresh_alw alw mid1 s v hs hmidk, dictLookup_dictSet_self]
    have hfinal := convertChildren_preserve alw post ctx1 d (.kStr s) hpost
      (fun x hx => hkeys x (List.mem_append_right _ hx))
    rw [hfinal, hc1]

/-- Witness for C2: in the block `b = { k = 1 k = 2 }` with no repeatable
keys, the key `k` normalizes to the two-element list `[1, 2]`. -/
theorem C2_merge_policy_witness :
    dictLookup [(.kStr "k", TValue.list [.int 1, .int 2])] (.kStr "k") =
      some (.list [.int 1, .int 2]) := by
  exact C2_merge_policy.2.1 [] .plain ⟨.vStr "b", .IDENTIFIER⟩ [] [] []
    (.keyValue ⟨.vStr "k", .IDENTIFIER⟩ ⟨.vInt 1, .NUMBER_LITERAL⟩)
    (.keyValue ⟨.vStr "k", .IDENTIFIER⟩ ⟨.vInt 2, .NUMBER_LITERAL⟩)
    (.kStr "k") (.int 1) (.int 2) [(.kStr "k", .list [.int 1, .int 2])]
    (by simp)
    (Or.inl ⟨_, _, rfl, ⟨.rawStr "k", by with_unfolding_all rfl, by with_unfolding_all rfl⟩,
      by with_unfolding_all rfl⟩)
    (Or.inl ⟨_, _, rfl, ⟨.rawStr "k", by with_unfolding_all rfl, by with_unfolding_all rfl⟩,
      by with_unfolding_all rfl⟩)
    (by simp)
    (by with_unfolding_all rfl)

/-- C9: comparison children bypass the repeated-key merge policy.  When a
block contains two comparisons with the same left-hand scalar, the later
one silently overwrites the earlier one by direct dictionary assignment
(no list is formed); likewise a comparison whose left side equals the key
of an earlier key/value pair overwrites that pair's entry in place. -/
theorem C9_comparison_overwrites :
    (∀ (alw : List String) (tag : BlockTag) (ctxV : VNode) (l : String)
       (op₁ op₂ : PyVal) (r₁ r₂ : VNode) (v₁ v₂ : TValue),
       convertValueNode r₁ = .ok v₁ →
       convertValueNode r₂ = .ok v₂ →
       convertNode alw (.obj tag ctxV
         [.comparison ⟨.vStr l, .IDENTIFIER⟩ op₁ r₁,
          .comparison ⟨.vStr l, .IDENTIFIER⟩ op₂ r₂]) =
         .ok (.dict [(.kStr l, .comp (.rawStr l) op₂ v₂)])) ∧
    (∀ (alw : List String) (tag : BlockTag) (ctxV : VNode) (l : String)
       (op : PyVal) (w r : VNode) (vw vr : TValue),
       convertValueNode w = .ok vw →
       convertValueNode r = .ok vr →
       convertNode alw (.obj tag ctxV
         [.keyValue ⟨.vStr l, .IDENTIFIER⟩ w,
          .comparison ⟨.vStr l, .IDENTIFIER⟩ op r]) =
         .ok (.dict [(.kStr l, .comp (.rawStr l) op vr)])) := by
  constructor
  · intro alw tag ctxV l op₁ op₂ r₁ r₂ v₁ v₂ h₁ h₂
    have hl : convertValueNode ⟨.vStr l, .IDENTIFIER⟩ = .ok (.rawStr l) := by
      with_unfolding_all rfl
    simp [convertNode, convertChildren, convertChild, convertComparison,
      hl, h₁, h₂, Bind.bind, Except.bind, toTKey, dictSet]
  · intro alw tag ctxV l op w r vw vr hw hr
    have hl : convertValueNode ⟨.vStr l, .IDENTIFIER⟩ = .ok (.rawStr l) := by
      with_unfolding_all rfl
    by_cases hmem : l ∈ alw
    · simp [convertNode, convertChildren, convertChild, convertComparison,
        hl, hw, hr, Bind.bind, Except.bind, toTKey, kvUnwrap, storeInContext,
        dictLookup, dictSet, hmem]
    · simp [convertNode, convertChildren, convertChild, convertComparison,
        hl, hw, hr, Bind.bind, Except.bind, toTKey, kvUnwrap, storeInContext,
        dictLookup, dictSet, hmem]

/-- Witness for C9: the block `b = { x > 1 x < 2 }` normalizes `x` to the
later comparison `x < 2` alone. -/
theorem C9_comparison_overwrites_witness :
    convertNode [] (.obj .plain ⟨.vStr "b", .IDENTIFIER⟩
      [.comparison ⟨.vStr "x", .IDENTIFIER⟩ (.vStr ">") ⟨.vInt 1, .NUMBER_LITERAL⟩,
       .comparison ⟨.vStr "x", .IDENTIFIER⟩ (.vStr "<") ⟨.vInt 2, .NUMBER_LITERAL⟩]) =
      .ok (.dict [(.kStr "x", .comp (.rawStr "x") (.vStr "<") (.int 2))]) := by
  exact C9_comparison_overwrites.1 [] .plain ⟨.vStr "b", .IDENTIFIER⟩ "x"
    (.vStr ">") (.vStr "<") ⟨.vInt 1, .NUMBER_LITERAL⟩ ⟨.vInt 2, .NUMBER_LITERAL⟩
    (.int 1) (.int 2) (by with_unfolding_all rfl) (by with_unfolding_all rfl)

/-- C3 (amended): constant hoisting, for blocks that are not
trigger-tagged (in trigger blocks the key/value-to-comparison rewrite runs
first and no hoisting happens — see the counterexample).  If a non-trigger
block contains the constant-keyed pair `@foo = v` and no other child
writes to `@foo` or to `_constants`, then after the parser's
post-processing and normalization the pair is absent from the block's
direct key space, `_constants` is the first entry of the block, and the
pair sits inside the `_constants` sub-mapping under its `@`-prefixed key.
The second conjunct shows the `_constants` node is inserted only when a
constant-keyed pair exists: otherwise hoisting leaves the children
unchanged. -/
theorem C3_constant_hoisting :
    (∀ (alw : List String) (tag : BlockTag) (ctxV : VNode) (pre post : List PNode)
       (kstr : String) (vn : VNode) (v : TValue) (d : TDict),
       tag ≠ .trigger →
       convertValueNode vn = .ok v →
       kstr ≠ "_constants" →
       kstr ∉ alw →
       "_constants" ∉ alw →
       (∀ x ∈ pre ++ post, childKeyOf x ≠ some (.kStr kstr) ∧
         childKeyOf x ≠ some (.kStr "_constants")) →
       convertNode alw (postProcessObject tag ctxV
         (pre ++ .keyValue ⟨.vStr kstr, .CONSTANT⟩ vn :: post)) = .ok (.dict d) →
       (∃ dc, d.head? = some (.kStr "_constants", .dict dc) ∧
         dictLookup dc (.kStr kstr) = some v) ∧
       dictLookup d (.kStr kstr) = none) ∧
    (∀ cs : List PNode, (∀ c ∈ cs, isConstKV c = false) → hoistConstants cs = cs) := by
  constructor
  · intro alw tag ctxV pre post kstr vn v d htag hv hne halk halc hkeys h
    set kv : PNode := .keyValue ⟨.vStr kstr, .CONSTANT⟩ vn with hkv
    set cs : List PNode := pre ++ kv :: post with hcs
    -- the block is not re-classified as an array, and is not a trigger block
    have hall : cs.all isValueNode = false := by
      rw [List.all_eq_false]
      exact ⟨kv, by simp [hcs], by simp [hkv, isValueNode]⟩
    have hconst : isConstKV kv = true := by simp [hkv, isConstKV]
    have hkvmem : kv ∈ cs := by simp [hcs]
    have hconsts_ne : (cs.filter isConstKV).isEmpty = false := by
      rw [List.isEmpty_eq_false_iff_exists_mem]
      exact ⟨kv, List.mem_filter.mpr ⟨hkvmem, hconst⟩⟩
    rw [postProcessObject] at h
    rw [if_neg (by simp [hall])] at h
    rw [if_neg htag] at h
    simp only [hoistConstants, hconsts_ne, Bool.false_eq_true, if_false] at h
    -- name the hoisted pieces
    have hcc := convertNode_obj_ok alw tag ctxV _ d h
    obtain ⟨ctx1, hcn, hfilt⟩ := convertChildren_cons_ok alw _ _ [] d hcc
    -- the `_constants` node converts to a mapping `dc`
    cases hdc : convertChildren alw (cs.filter isConstKV) [] with
    | error e => simp [convertChild, hdc, Bind.bind, Except.bind] at hcn
    | ok dc =>
        have hctx1 : ctx1 = [(.kStr "_constants", .dict dc)] := by
          have hst : convertChild alw
              (.obj .plain ⟨.vStr "_constants", .CONSTANT⟩ (cs.filter isConstKV)) [] =
              .ok (storeInContext alw [] (.kStr "_constants") (.dict dc)) := by
            simp [convertChild, hdc, Bind.bind, Except.bind, injectPyKey]
          rw [hcn] at hst
          injection hst with hst'
          rw [hst', store_fresh_notalw alw [] (.kStr "_constants") (.dict dc)
            (by intro s hs; injection hs with hs'; rw [← hs']; exact halc) rfl]
          rfl
        -- the constant pairs, in order, are those of pre, then ours, then post's
        have hsplit : cs.filter isConstKV =
            pre.filter isConstKV ++ kv :: post.filter isConstKV := by
          rw [hcs, List.filter_append, List.filter_cons_of_pos hconst]
        -- inside `dc`, our pair's key holds our value
        have hdck : dictLookup dc (.kStr kstr) = some v := by
          rw [hsplit] at hdc
          obtain ⟨mid1, hpreC, hrest⟩ :=
            convertChildren_append_ok alw _ _ [] dc hdc
          obtain ⟨ctxa, hkvc, hpostC⟩ := convertChildren_cons_ok alw _ _ mid1 dc hrest
          have hmidk : dictLookup mid1 (.kStr kstr) = none := by
            have := convertChildren_preserve alw _ [] mid1 (.kStr kstr) hpreC
              (fun x hx => (hkeys x (List.mem_append_left _ (List.mem_filter.mp hx).1)).1)
            simpa [dictLookup] using this
          have hm := convertChild_merge alw kv (.kStr kstr) v mid1
            (Or.inl ⟨_, _, hkv, ⟨.const kstr, by with_unfolding_all rfl,
              by with_unfolding_all rfl⟩, hv⟩)
          rw [hkvc] at hm
          injection hm with hm'
          have hca : dictLookup ctxa (.kStr kstr) = some v := by
            rw [hm', store_fresh_notalw alw mid1 (.kStr kstr) v
              (by intro s hs; injection hs with hs'; rw [← hs']; exact halk) hmidk,
              dictLookup_dictSet_self]
          have hfin := convertChildren_preserve alw _ ctxa dc (.kStr kstr) hpostC
            (fun x hx =>
              (hkeys x (List.mem_append_right _ (List.mem_filter.mp hx).1)).1)
          rw [hfin, hca]
        -- no child remaining after the hoist writes to our key or to `_constants`
        have hfiltmem : ∀ x, x ∈ cs.filter (fun x =>
            match x with
            | PNode.keyValue k _ =>
                decide (k.value ∉ ((cs.filter isConstKV).filterMap kvKeyVal))
            | _ => true) →
            childKeyOf x ≠ some (.kStr kstr) ∧
            childKeyOf x ≠ some (.kStr "_constants") := by
          intro x hx
          obtain ⟨hxcs, hxkeep⟩ := List.mem_filter.mp hx
          rw [hcs] at hxcs
          rcases List.mem_append.mp hxcs with hxpre | hxtail
          · exact hkeys x (List.mem_append_left _ hxpre)
          · rcases List.mem_cons.mp hxtail with hxkv | hxpost
            · exfalso
              subst hxkv
              have hmem : PyVal.vStr kstr ∈ (cs.filter isConstKV).filterMap kvKeyVal := by
                refine List.mem_filterMap.mpr ⟨kv, List.mem_filter.mpr ⟨hkvmem, hconst⟩, ?_⟩
                simp [hkv, kvKeyVal]
              rw [hkv] at hxkeep
              simp only [decide_eq_true_eq] at hxkeep
              exact hxkeep hmem
            · exact hkeys x (List.mem_append_right _ hxpost)
        have hlookc : dictLookup d (.kStr "_constants") = some (.dict dc) := by
          have := convertChildren_preserve alw _ ctx1 d (.kStr "_constants") hfilt
            (fun x hx => (hfiltmem x hx).2)
          rw [this, hctx1]
          simp [dictLookup]
        have hlookk : dictLookup d (.kStr kstr) = none := by
          have := convertChildren_preserve alw _ ctx1 d (.kStr kstr) hfilt
            (fun x hx => (hfiltmem x hx).1)
          rw [this, hctx1]
          simp [dictLookup, hne]
          intro hcon
          exact hne hcon.symm
        obtain ⟨hdne, hdhead⟩ := convertChildren_head alw _ ctx1 d hfilt
          (by rw [hctx1]; simp)
        refine ⟨⟨dc, ?_, hdck⟩, hlookk⟩
        -- combine the head key with the lookup to pin down the first entry
        cases hd : d with
        | nil => exact absurd hd hdne
        | cons p rest =>
            obtain ⟨k0, w⟩ := p
            rw [hd] at hdhead
            rw [hctx1] at hdhead
            simp at hdhead
            rw [hd] at hlookc
            rw [hdhead] at hlookc ⊢
            simp [dictLookup] at hlookc
            rw [hlookc]
            rfl
  · intro cs hnone
    have hfe : cs.filter isConstKV = [] := by
      rw [List.filter_eq_nil_iff]
      intro c hc
      simp [hnone c hc]
    rw [hoistConstants]
    simp only [hfe, List.isEmpty_nil, if_true, List.filterMap_nil]
    rw [List.filter_eq_self]
    intro c hc
    cases c <;> simp

/-- Witness for C3: in `b = { @foo = 1 bar = 2 }` the pair `@foo = 1` is
hoisted into a leading `_constants` sub-mapping and is absent from the
block's direct key space. -/
theorem C3_constant_hoisting_witness :
    (∃ dc, ([(TKey.kStr "_constants", TValue.dict [(.kStr "@foo", .int 1)]),
             (TKey.kStr "bar", TValue.int 2)] : TDict).head? =
        some (.kStr "_constants", .dict dc) ∧
      dictLookup dc (.kStr "@foo") = some (.int 1)) ∧
    dictLookup [(TKey.kStr "_constants", TValue.dict [(.kStr "@foo", .int 1)]),
      (TKey.kStr "bar", TValue.int 2)] (.kStr "@foo") = none := by
  exact C3_constant_hoisting.1 [] .plain ⟨.vStr "b", .IDENTIFIER⟩ []
    [.keyValue ⟨.vStr "bar", .IDENTIFIER⟩ ⟨.vInt 2, .NUMBER_LITERAL⟩]
    "@foo" ⟨.vInt 1, .NUMBER_LITERAL⟩ (.int 1)
    [(.kStr "_constants", .dict [(.kStr "@foo", .int 1)]), (.kStr "bar", .int 2)]
    (by simp)
    (by with_unfolding_all rfl)
    (by simp)
    (by simp)
    (by simp)
    (by
      intro x hx
      simp only [List.nil_append, List.mem_cons, List.not_mem_nil, or_false] at hx
      subst hx
      refine ⟨?_, ?_⟩ <;>
        (intro hcon
         simp [childKeyOf, convertValueNode, injectPy, kvUnwrap, toTKey] at hcon)
    )
    (by with_unfolding_all rfl)

/-- On an all-scalar list the inline renderer is just `_format_scalar`
element-wise. -/
theorem cwInlineParts_scalars (xs : List CWV) (h : ∀ x ∈ xs, cwIsScalar x = true) :
    cwInlineParts xs = .ok (xs.map cwFmtScalar) := by
  induction xs with
  | nil => rfl
  | cons x rest ih =>
      have hx := h x (by simp)
      have hr := ih (fun y hy => h y (by simp [hy]))
      cases x with
      | scalar v => simp [cwInlineParts, hr, Bind.bind, Except.bind]
      | comp l op r => simp [cwIsScalar] at hx
      | list ys => simp [cwIsScalar] at hx
      | block es => simp [cwIsScalar] at hx

/-- On an all-scalar list the multi-line item renderer emits one indented
scalar per line. -/
theorem cwListItems_scalars (F : CWFmt) (xs : List CWV) (level : Nat)
    (h : ∀ x ∈ xs, cwIsScalar x = true) :
    cwListItems F xs level =
      .ok (xs.map (fun x => cwIndent F level ++ cwFmtScalar x)) := by
  induction xs with
  | nil => rfl
  | cons x rest ih =>
      have hx := h x (by simp)
      have hr := ih (fun y hy => h y (by simp [hy]))
      cases x with
      | scalar v => simp [cwListItems, hr, Bind.bind, Except.bind]
      | comp l op r => simp [cwIsScalar] at hx
      | list ys => simp [cwIsScalar] at hx
      | block es => simp [cwIsScalar] at hx

/-- C7: the v2 formatter's inlining boundary.  With inlining enabled, a
list of exactly 8 plain scalars renders as a single spaced one-liner; a
list of 9 scalars renders as a multi-line brace group (one element per
line); an empty list always renders as the single line `key = {}` and
never as a spaced one-liner; a block can inline exactly when it has one
entry whose value is a plain scalar, so a block with two entries never
inlines and always renders as a multi-line brace group. -/
theorem C7_inlining_boundary :
    (∀ (F : CWFmt) (key : String) (xs : List CWV) (level : Nat),
       F.inlineBraces = true →
       xs.length = 8 →
       (∀ x ∈ xs, cwIsScalar x = true) →
       cwFormatList F key xs level =
         .ok [cwIndent F level ++ key ++ " = \x7b " ++
           String.intercalate " " (xs.map cwFmtScalar) ++ " \x7d"]) ∧
    (∀ (F : CWFmt) (key : String) (xs : List CWV) (level : Nat),
       xs.length = 9 →
       (∀ x ∈ xs, cwIsScalar x = true) →
       cwFormatList F key xs level =
         .ok ((cwIndent F level ++ key ++ " = \x7b") ::
           xs.map (fun x => cwIndent F (level + 1) ++ cwFmtScalar x) ++
           [cwIndent F level ++ "\x7d"])) ∧
    (∀ (F : CWFmt) (key : String) (level : Nat),
       cwFormatList F key [] level = .ok [cwIndent F level ++ key ++ " = \x7b\x7d"]) ∧
    (∀ entries : List (String × CWV),
       cwCanInlineBlock entries = true ↔
         ∃ k v, entries = [(k, v)] ∧ cwIsScalar v = true) ∧
    (∀ (F : CWFmt) (name : String) (entries : List (String × CWV)) (level : Nat)
       (ls : List String),
       entries.length = 2 →
       cwFormatBlock F name entries level = .ok ls →
       ls.head? = some (cwIndent F level ++ name ++ " = \x7b") ∧ 2 ≤ ls.length) := by
  refine ⟨?_, ?_, ?_, ?_, ?_⟩
  · intro F key xs level hF hlen hscal
    have hne : xs ≠ [] := by
      intro he
      rw [he] at hlen
      simp at hlen
    have hie : xs.isEmpty = false := by
      cases xs with
      | nil => exact absurd rfl hne
      | cons a t => rfl
    have hcil : cwCanInlineList xs = true := by
      simp [cwCanInlineList, hie, hlen, List.all_eq_true]
      exact hscal
    simp [cwFormatList, hie, hF, hcil, cwInlineParts_scalars xs hscal,
      Bind.bind, Except.bind]
  · intro F key xs level hlen hscal
    have hne : xs ≠ [] := by
      intro he
      rw [he] at hlen
      simp at hlen
    have hie : xs.isEmpty = false := by
      cases xs with
      | nil => exact absurd rfl hne
      | cons a t => rfl
    have hcil : cwCanInlineList xs = false := by
      simp [cwCanInlineList, hlen]
    simp [cwFormatList, hie, hcil, cwListItems_scalars F xs (level + 1) hscal,
      Bind.bind, Except.bind]
  · intro F key level
    simp [cwFormatList]
  · intro entries
    cases entries with
    | nil => simp [cwCanInlineBlock]
    | cons e rest =>
        cases rest with
        | nil =>
            obtain ⟨k, v⟩ := e
            constructor
            · intro h
              exact ⟨k, v, rfl, by simpa [cwCanInlineBlock] using h⟩
            · rintro ⟨k', v', he, hs⟩
              cases he
              simpa [cwCanInlineBlock] using hs
        | cons e2 rest2 =>
            constructor
            · intro h
              simp [cwCanInlineBlock] at h
            · rintro ⟨k', v', he, hs⟩
              cases he
  · intro F name entries level ls hlen h
    cases entries with
    | nil => simp at hlen
    | cons a t =>
        cases t with
        | nil => simp at hlen
        | cons b t2 =>
            have hcib : cwCanInlineBlock (a :: b :: t2) = false := rfl
            cases hbody : cwFormatEntries F (a :: b :: t2) (level + 1) with
            | error e =>
                simp [cwFormatBlock, hcib, hbody, Bind.bind, Except.bind] at h
            | ok body =>
                simp [cwFormatBlock, hcib, hbody, Bind.bind, Except.bind] at h
                rw [← h]
                constructor
                · rfl
                · simp

/-- Witness for C7: a list of 8 integer scalars inlines on one line, and
a two-entry block does not inline. -/
theorem C7_inlining_boundary_witness :
    cwFormatList {} "k"
      [CWV.scalar (.int 1), .scalar (.int 2), .scalar (.int 3), .scalar (.int 4),
       .scalar (.int 5), .scalar (.int 6), .scalar (.int 7), .scalar (.int 8)] 0 =
      .ok [cwIndent {} 0 ++ "k" ++ " = \x7b " ++
        String.intercalate " "
          (([CWV.scalar (.int 1), .scalar (.int 2), .scalar (.int 3), .scalar (.int 4),
             .scalar (.int 5), .scalar (.int 6), .scalar (.int 7), .scalar (.int 8)]).map
            cwFmtScalar) ++ " \x7d"] ∧
    cwCanInlineBlock [("a", CWV.scalar (.int 1)), ("b", .scalar (.int 2))] = false := by
  constructor
  · exact C7_inlining_boundary.1 {} "k" _ 0 rfl rfl
      (by intro x hx; simp at hx; rcases hx with h | h | h | h | h | h | h | h <;>
        (rw [h]; rfl))
  · have h := (C7_inlining_boundary.2.2.2.1
      [("a", CWV.scalar (.int 1)), ("b", .scalar (.int 2))])
    by_contra hcon
    rw [Bool.not_eq_false] at hcon
    obtain ⟨k, v, he, _⟩ := h.mp hcon
    cases he
